import Mathlib

/-!
The xallocator front end: size-class dispatch over fixed-block pools.

A shallow embedding of `src/xallocator.cpp` (dynamic mode, `STATIC_POOLS` undefined,
64-bit target) together with theorems about its size-class rounding, block header
codec, registry and public API (`xmalloc`, `xfree`, `xrealloc`, `xalloc_destroy`).

Conventions.
* `size_t` values are natural numbers; arithmetic that can wrap is reduced modulo `2 ^ 64`.
* Pointers are natural numbers, `0` is `NULL`.
* Byte memory is a function from addresses to byte values.
* A fatal `ASSERT` is the result `none`.
* The `Allocator` class (the fixed-block pool, `allocator.h`) is not among the sources;
  its members are modelled from the specification and marked as such.
-/

namespace XAllocator

/-! ## Constants -/

/-- Embedding of `CHAR_BIT` (line 9). -/
def CHAR_BIT : Nat := 8

/-- Embedding of `sizeof(size_t)` on the 64-bit target. -/
def sizeof_size_t : Nat := 8

/-- Embedding of `sizeof(Allocator*)` on the 64-bit target: the header size. -/
def sizeof_AllocatorPtr : Nat := 8

/-- Number of values of `size_t`: `2 ^ 64`. -/
def SIZE_MOD : Nat := 2 ^ 64

/-- Embedding of `MAX_ALLOCATORS` in dynamic mode (line 48). -/
def MAX_ALLOCATORS : Nat := 15

/-! ## Size-class rounding -/

/-- The loop `for (unsigned int i = 1; i < sizeof(T)*CHAR_BIT; i <<= 1) k = k | k >> i;`
of `nexthigher` (lines 79-80), started at counter `i` with value `k`. The first argument
bounds the number of iterations; the loop leaves through its own condition after at most
seven tests (see `nexthigher_loop_unroll`). -/
def nexthigher_loop : Nat → Nat → Nat → Nat
  | 0, _, k => k
  | fuel + 1, i, k =>
    if i < sizeof_size_t * CHAR_BIT then nexthigher_loop fuel (i <<< 1) (k ||| (k >>> i))
    else k

/-- Embedding of `nexthigher<size_t>` (lines 73-82): `0` maps to `1`; otherwise decrement, smear the
bits to the right, increment (the increment wraps modulo `2 ^ 64`). -/
def nexthigher (k : Nat) : Nat :=
  if k = 0 then 1
  else (nexthigher_loop 64 1 (k - 1) + 1) % SIZE_MOD

/-- The local `blockSize` that `xallocator_get_allocator` computes from `size`
(lines 237-243). The addition `size + sizeof(Allocator*)` is a `size_t` addition. -/
def blockSizeFor (size : Nat) : Nat :=
  if size > 256 ∧ size ≤ 396 then 396
  else if size > 512 ∧ size ≤ 768 then 768
  else nexthigher ((size + sizeof_AllocatorPtr) % SIZE_MOD)

/-! ## State -/

/-- Modelled from the spec: the `Allocator` class (the fixed-block Pool of `allocator.h`,
which is not among the sources). Following the spec's collaborator contract a Pool is its
configured block size plus the number of blocks currently checked out. -/
structure Allocator where
  /-- What `GetBlockSize()` returns: the block size given at construction. -/
  blockSize : Nat
  /-- What `GetBlocksInUse()` returns. -/
  blocksInUse : Nat
  deriving DecidableEq, Repr

/-- Calls made to the external collaborators (critical section and Pool), in order. -/
inductive Event where
  /-- Call `InitializeCriticalSectionAndSpinCount(&_criticalSection, 0x400)` -/
  | csInit
  /-- Call `DeleteCriticalSection(&_criticalSection)` -/
  | csDelete
  /-- Call `EnterCriticalSection(&_criticalSection)` -/
  | csEnter
  /-- Call `LeaveCriticalSection(&_criticalSection)` -/
  | csLeave
  /-- Call `new Allocator(blockSize, 0, 0, "xallocator")` returning the pointer `ptr` -/
  | poolNew (ptr blockSize : Nat)
  /-- Call `delete ptr` -/
  | poolDelete (ptr : Nat)
  /-- Call `ptr->Allocate(size)` returning `result` -/
  | poolAllocate (ptr size result : Nat)
  /-- Call `ptr->Deallocate(block)` -/
  | poolDeallocate (ptr block : Nat)
  deriving DecidableEq, Repr

/-- The file-level state of `xallocator.cpp` and the part of the machine it acts on. -/
structure State where
  /-- Variable `_xallocInitialized` (line 13). -/
  xallocInitialized : Bool
  /-- Variable `_allocators[MAX_ALLOCATORS]` (line 49): Pool pointers, `0` for an empty slot. -/
  allocators : List Nat
  /-- The Pool object stored at each address. -/
  heap : Nat → Allocator
  /-- The address the next `new Allocator` returns. -/
  next : Nat
  /-- Byte memory the raw blocks live in. -/
  mem : Nat → Nat
  /-- The calls made so far to the critical section and to the Pools. -/
  trace : List Event

/-- State at process start: the guard flag is `FALSE`, the static array `_allocators` is
zero-initialised, no Pool has been created, and memory holds `mem`. -/
def initialState (mem : Nat → Nat) : State where
  xallocInitialized := false
  allocators := List.replicate MAX_ALLOCATORS 0
  heap := fun _ => ⟨0, 0⟩
  next := 1
  mem := mem
  trace := []

/-- Record one collaborator call. -/
def State.log (st : State) (e : Event) : State :=
  { st with trace := st.trace ++ [e] }

/-! ## The Pool (external collaborator) -/

/-- Modelled from the spec: `Allocator::GetBlockSize()` of the Pool at `a`
(`Pool.blockSize() -> size_t`). -/
def GetBlockSize (st : State) (a : Nat) : Nat := (st.heap a).blockSize

/-- Modelled from the spec: `Allocator::GetBlocksInUse()` of the Pool at `a`
(`Pool.blocksInUse() -> size_t`). -/
def GetBlocksInUse (st : State) (a : Nat) : Nat := (st.heap a).blocksInUse

/-- Modelled from the spec: `new Allocator(blockSize, 0, 0, "xallocator")`
(`Construct(blockSize, growthIncrement, maxBlocks, name) -> Pool`): a Pool with the given
block size and no block in use is placed at the fresh address `st.next`. -/
def new_Allocator (st : State) (blockSize : Nat) : Nat × State :=
  (st.next,
    { st with
      heap := fun x => if x = st.next then ⟨blockSize, 0⟩ else st.heap x
      next := st.next + 1
      trace := st.trace ++ [Event.poolNew st.next blockSize] })

/-- Modelled from the spec: `delete a` for a Pool pointer `a`; the destruction is recorded. -/
def delete_Allocator (st : State) (a : Nat) : State :=
  st.log (Event.poolDelete a)

/-- Modelled from the spec: `Allocator::Allocate(size)` on the Pool at `a`
(`Pool.allocate(requestedSize) -> rawPointer | failure`). Which raw block the Pool hands
out is its own business: `raw` is that result, `0` when the Pool cannot supply a block.
A supplied block counts as in use. -/
def Allocate (st : State) (a size raw : Nat) : Nat × State :=
  if raw = 0 then (0, st.log (Event.poolAllocate a size 0))
  else
    (raw,
      { st with
        heap := fun x =>
          if x = a then { st.heap a with blocksInUse := (st.heap a).blocksInUse + 1 }
          else st.heap x
        trace := st.trace ++ [Event.poolAllocate a size raw] })

/-- Modelled from the spec: `Allocator::Deallocate(block)` on the Pool at `a`
(`Pool.deallocate(rawPointer)`): the block is no longer in use. -/
def Deallocate (st : State) (a block : Nat) : State :=
  { st with
    heap := fun x =>
      if x = a then { st.heap a with blocksInUse := (st.heap a).blocksInUse - 1 }
      else st.heap x
    trace := st.trace ++ [Event.poolDeallocate a block] }

/-! ## Concurrency guard -/

/-- Embedding of `lock_init` (lines 85-90); `success` is what
`InitializeCriticalSectionAndSpinCount` returns, `ASSERT_TRUE(success != 0)` is fatal. -/
def lock_init (st : State) (success : Nat) : Option State :=
  let st := st.log Event.csInit
  if success ≠ 0 then some { st with xallocInitialized := true } else none

/-- Embedding of `lock_destroy` (lines 93-97). -/
def lock_destroy (st : State) : State :=
  { st.log Event.csDelete with xallocInitialized := false }

/-- Embedding of `lock_get` (lines 100-106). -/
def lock_get (st : State) : State :=
  if st.xallocInitialized = false then st else st.log Event.csEnter

/-- Embedding of `lock_release` (lines 109-115). -/
def lock_release (st : State) : State :=
  if st.xallocInitialized = false then st else st.log Event.csLeave

/-! ## Block header codec -/

/-- Store of one `Allocator*` (8 bytes, little endian) at address `addr`. -/
def storePtr (mem : Nat → Nat) (addr v : Nat) : Nat → Nat :=
  fun x =>
    if addr ≤ x ∧ x < addr + sizeof_AllocatorPtr then v / 256 ^ (x - addr) % 256 else mem x

/-- Load of one `Allocator*` (8 bytes, little endian) from address `addr`. -/
def loadPtr (mem : Nat → Nat) (addr : Nat) : Nat :=
  ((List.range sizeof_AllocatorPtr).map fun i => mem (addr + i) % 256 * 256 ^ i).sum

/-- Embedding of `set_block_allocator` (lines 122-133): write the Pool pointer into the first word of
the raw block and return the address one `Allocator*` further. -/
def set_block_allocator (st : State) (block allocator : Nat) : Nat × State :=
  (block + sizeof_AllocatorPtr, { st with mem := storePtr st.mem block allocator })

/-- Embedding of `get_block_allocator` (lines 138-148): the Pool pointer stored one `Allocator*`
before the client pointer. -/
def get_block_allocator (st : State) (block : Nat) : Nat :=
  loadPtr st.mem (block - sizeof_AllocatorPtr)

/-- Embedding of `get_block_ptr` (lines 153-160): the raw block address, one `Allocator*` before the
client pointer. -/
def get_block_ptr (block : Nat) : Nat := block - sizeof_AllocatorPtr

/-- Embedding of `memcpy(dst, src, n)`: the `n` bytes at `dst` become the bytes that were at `src`. -/
def memcpy (st : State) (dst src n : Nat) : State :=
  { st with mem := fun x => if dst ≤ x ∧ x < dst + n then st.mem (src + (x - dst)) else st.mem x }

/-! ## Registry -/

/-- The loop of `find_allocator` (lines 168-175) over the slots still to visit. -/
def find_allocator_loop (st : State) (size : Nat) : List Nat → Nat
  | [] => 0
  | a :: rest =>
    if a = 0 then 0
    else if GetBlockSize st a = size then a
    else find_allocator_loop st size rest

/-- Embedding of `find_allocator` (lines 166-178): `0` is `NULL`. -/
def find_allocator (st : State) (size : Nat) : Nat :=
  find_allocator_loop st size st.allocators

/-- The loop of `insert_allocator` (lines 184-191) over the slots still to visit;
`none` when the loop ends without finding an empty slot. -/
def insert_allocator_loop (allocator : Nat) : List Nat → Option (List Nat)
  | [] => none
  | a :: rest =>
    if a = 0 then some (allocator :: rest)
    else (insert_allocator_loop allocator rest).map (a :: ·)

/-- Embedding of `insert_allocator` (lines 182-194): `none` is the fatal `ASSERT()` of line 193. -/
def insert_allocator (st : State) (allocator : Nat) : Option State :=
  (insert_allocator_loop allocator st.allocators).map fun l => { st with allocators := l }

/-- The loop of `xalloc_destroy` (lines 210-216) over the slots still to visit: every
slot up to the first empty one has its Pool deleted and is set to `0`. Returns the state
after the deletions and the new contents of the visited slots. -/
def xalloc_destroy_loop (st : State) : List Nat → State × List Nat
  | [] => (st, [])
  | a :: rest =>
    if a = 0 then (st, a :: rest)
    else
      let r := xalloc_destroy_loop (delete_Allocator st a) rest
      (r.1, 0 :: r.2)

/-! ## Public API -/

/-- Embedding of `xalloc_init` (lines 199-202). -/
def xalloc_init (st : State) (success : Nat) : Option State := lock_init st success

/-- Embedding of `xalloc_destroy` (lines 205-222), dynamic mode. -/
def xalloc_destroy (st : State) : State :=
  let st := lock_get st
  let r := xalloc_destroy_loop st st.allocators
  let st := { r.1 with allocators := r.2 }
  let st := lock_release st
  lock_destroy st

/-- Embedding of `xallocator_get_allocator` (lines 230-262), dynamic mode: the Pool for `size` and the
state after the call; `none` when `insert_allocator` asserts. -/
def xallocator_get_allocator (st : State) (size : Nat) : Option (Nat × State) :=
  let blockSize := blockSizeFor size
  let allocator := find_allocator st blockSize
  if allocator = 0 then
    let r := new_Allocator st blockSize
    (insert_allocator r.2 r.1).map fun st => (r.1, st)
  else some (allocator, st)

/-- Embedding of `xmalloc` (lines 268-281). `raw` is what `allocator->Allocate(size)` returns. -/
def xmalloc (st : State) (size raw : Nat) : Option (Nat × State) :=
  let st := lock_get st
  match xallocator_get_allocator st size with
  | none => none
  | some (allocator, st) =>
    let r := Allocate st allocator size raw
    let st := lock_release r.2
    some (set_block_allocator st r.1 allocator)

/-- Embedding of `xfree` (lines 286-303). -/
def xfree (st : State) (ptr : Nat) : State :=
  if ptr = 0 then st
  else
    let allocator := get_block_allocator st ptr
    let blockPtr := get_block_ptr ptr
    let st := lock_get st
    let st := Deallocate st allocator blockPtr
    lock_release st

/-- Embedding of `xrealloc` (lines 308-339). `raw` is what the Pool returns to the inner `xmalloc`. -/
def xrealloc (st : State) (oldMem size raw : Nat) : Option (Nat × State) :=
  if oldMem = 0 then xmalloc st size raw
  else if size = 0 then some (0, xfree st oldMem)
  else
    match xmalloc st size raw with
    | none => none
    | some (newMem, st) =>
      if newMem ≠ 0 then
        let oldAllocator := get_block_allocator st oldMem
        let oldSize := (GetBlockSize st oldAllocator + SIZE_MOD - sizeof_AllocatorPtr) % SIZE_MOD
        let st := memcpy st newMem oldMem (if oldSize < size then oldSize else size)
        let st := xfree st oldMem
        some (newMem, st)
      else some (0, st)

/-! ## Callers -/

/-- The caller stores the `n` bytes `pattern 0, ..., pattern (n - 1)` at address `p`. -/
def client_write (st : State) (p n : Nat) (pattern : Nat → Nat) : State :=
  { st with mem := fun x => if p ≤ x ∧ x < p + n then pattern (x - p) else st.mem x }

/-- One call of the public API (or a store by the caller), with the values the
collaborators return to it. -/
inductive Call where
  /-- Call `xalloc_init()`, the critical section reporting `success` -/
  | xalloc_init (success : Nat)
  /-- Call `xalloc_destroy()` -/
  | xalloc_destroy
  /-- Call `xallocator_get_allocator(size)` -/
  | xallocator_get_allocator (size : Nat)
  /-- Call `xmalloc(size)`, the Pool returning `raw` -/
  | xmalloc (size raw : Nat)
  /-- Call `xfree(ptr)` -/
  | xfree (ptr : Nat)
  /-- Call `xrealloc(oldMem, size)`, the Pool returning `raw` -/
  | xrealloc (oldMem size raw : Nat)
  /-- the caller writes `byte` to address `addr` -/
  | store (addr byte : Nat)
  deriving DecidableEq, Repr

/-- The state after one call; `none` when the call ends in a fatal assertion. -/
def step (st : State) : Call → Option State
  | Call.xalloc_init success => xalloc_init st success
  | Call.xalloc_destroy => some (xalloc_destroy st)
  | Call.xallocator_get_allocator size => (xallocator_get_allocator st size).map (·.2)
  | Call.xmalloc size raw => (xmalloc st size raw).map (·.2)
  | Call.xfree ptr => some (xfree st ptr)
  | Call.xrealloc oldMem size raw => (xrealloc st oldMem size raw).map (·.2)
  | Call.store addr byte => some (client_write st addr 1 fun _ => byte)

/-- The state after a sequence of calls; `none` as soon as one of them is fatal. -/
def run (st : State) : List Call → Option State
  | [] => some st
  | c :: rest =>
    match step st c with
    | none => none
    | some st' => run st' rest

/-- The operator `new` returns a non-null address that no registered Pool occupies. -/
def FreshNext (st : State) : Prop :=
  0 < st.next ∧ ∀ a ∈ st.allocators, a < st.next

/-- Pool pointers are non-null 64-bit addresses and `new` returns an address that no
registered Pool occupies. -/
def HeapOK (st : State) : Prop :=
  0 < st.next ∧ st.next < SIZE_MOD ∧ ∀ a ∈ st.allocators, a < st.next

/-- The populated slots of the registry: the Pools up to the first empty slot. -/
def populated (l : List Nat) : List Nat := l.takeWhile fun a => a != 0

/-- Two states have the same registry: the same slots, the same next Pool address and the
same configured block size at every Pool address. -/
def SameRegistry (st st' : State) : Prop :=
  st'.allocators = st.allocators ∧ st'.next = st.next ∧
    ∀ x, GetBlockSize st' x = GetBlockSize st x

/-- The populated slots form a contiguous prefix: from the first empty slot on, every
slot is empty. -/
def Contiguous (l : List Nat) : Prop := ∀ x ∈ l.dropWhile (fun a => a != 0), x = 0

/-- The registry is empty and `new` does not return `NULL`: the state at process start, with
whatever else the machine holds. -/
def EmptyRegistry (st : State) : Prop :=
  st.allocators = List.replicate MAX_ALLOCATORS 0 ∧ 0 < st.next

/-- The registry invariant: `MAX_ALLOCATORS` slots, Pool addresses behind the next fresh
address, populated slots a contiguous prefix, and pairwise distinct block sizes on it. -/
def RegistryInv (st : State) : Prop :=
  0 < st.next ∧ (∀ a ∈ st.allocators, a < st.next) ∧
    st.allocators.length = MAX_ALLOCATORS ∧ Contiguous st.allocators ∧
    ((populated st.allocators).map (GetBlockSize st)).Nodup

/-- The configured block sizes of the populated slots, as a set. -/
def registeredSizes (st : State) : Finset Nat :=
  ((populated st.allocators).map (GetBlockSize st)).toFinset

/-- The loop of `insert_allocator` (lines 184-191) with the array made explicit: the
contents of the visited slots when control leaves the loop, and whether it left through the
`return` of line 189 (`true`) or ran on to the `ASSERT()` of line 193 (`false`). -/
def insert_allocator_slots (allocator : Nat) : List Nat → List Nat × Bool
  | [] => ([], false)
  | a :: rest =>
    if a = 0 then (allocator :: rest, true)
    else (a :: (insert_allocator_slots allocator rest).1, (insert_allocator_slots allocator rest).2)

/-- Two states hold the same data: the same registry, the same Pools, the same next Pool
address and the same memory. The guard flag and the record of collaborator calls may
differ. -/
def DataEq (st st' : State) : Prop :=
  st.allocators = st'.allocators ∧ st.heap = st'.heap ∧ st.next = st'.next ∧ st.mem = st'.mem

/-- Two results of `xmalloc`, `xrealloc` or `xallocator_get_allocator` agree: both are the
fatal assertion, or both return the same pointer in states holding the same data. -/
def ResEq : Option (Nat × State) → Option (Nat × State) → Prop
  | none, none => True
  | some r, some r' => r.1 = r'.1 ∧ DataEq r.2 r'.2
  | _, _ => False

/-- The third argument of the `memcpy` in `xrealloc` (line 329),
`(oldSize < size) ? oldSize : size` with `oldSize` from lines 325-326, evaluated in the
state `st` that the inner `xmalloc` left. -/
def xrealloc_copy_count (st : State) (oldMem size : Nat) : Nat :=
  let oldAllocator := get_block_allocator st oldMem
  let oldSize := (GetBlockSize st oldAllocator + SIZE_MOD - sizeof_AllocatorPtr) % SIZE_MOD
  if oldSize < size then oldSize else size

/-! ## Size-class rounding: lemmas -/

theorem le_lor_left (a b : Nat) : a ≤ a ||| b := by
  apply Nat.le_of_testBit
  intro i hi
  simp [Nat.testBit_or, hi]

theorem shiftRight_le_self (a i : Nat) : a >>> i ≤ a := by
  rw [Nat.shiftRight_eq_div_pow]
  exact Nat.div_le_self a (2 ^ i)

/-- The smear loop never clears a bit, so it never decreases its argument. -/
theorem le_nexthigher_loop (fuel : Nat) : ∀ i k, k ≤ nexthigher_loop fuel i k := by
  induction fuel with
  | zero => intro i k; simp [nexthigher_loop]
  | succ n ih =>
    intro i k
    unfold nexthigher_loop
    split
    · exact le_trans (le_lor_left k (k >>> i)) (ih _ _)
    · exact le_refl k

/-- The smear loop never sets a bit above the highest set bit of its argument. -/
theorem nexthigher_loop_lt (w fuel : Nat) :
    ∀ i k, k < 2 ^ w → nexthigher_loop fuel i k < 2 ^ w := by
  induction fuel with
  | zero => intro i k hk; simpa [nexthigher_loop] using hk
  | succ n ih =>
    intro i k hk
    unfold nexthigher_loop
    split
    · exact ih _ _ (Nat.or_lt_two_pow hk (lt_of_le_of_lt (shiftRight_le_self k i) hk))
    · exact hk

/-- The loop of `nexthigher` ends through its own condition `i < 64`, after the six
shifts by 1, 2, 4, 8, 16 and 32: the iteration bound of the model is never reached. -/
theorem nexthigher_loop_unroll (k : Nat) :
    nexthigher_loop 64 1 k =
      (let k1 := k ||| k >>> 1
       let k2 := k1 ||| k1 >>> 2
       let k3 := k2 ||| k2 >>> 4
       let k4 := k3 ||| k3 >>> 8
       let k5 := k4 ||| k4 >>> 16
       k5 ||| k5 >>> 32) := by
  simp [nexthigher_loop, sizeof_size_t, CHAR_BIT]

/-- Up to `2 ^ 63` the result of `nexthigher` is at least its argument. -/
theorem le_nexthigher (k : Nat) (hk : k ≤ 2 ^ 63) : k ≤ nexthigher k := by
  unfold nexthigher
  split
  · omega
  · have h1 : k - 1 ≤ nexthigher_loop 64 1 (k - 1) := le_nexthigher_loop 64 1 (k - 1)
    have h2 : nexthigher_loop 64 1 (k - 1) < 2 ^ 63 :=
      nexthigher_loop_lt 63 64 1 (k - 1) (by omega)
    have h3 : (nexthigher_loop 64 1 (k - 1) + 1) % SIZE_MOD = nexthigher_loop 64 1 (k - 1) + 1 := by
      apply Nat.mod_eq_of_lt
      simp only [SIZE_MOD]
      omega
    rw [h3]
    omega

/-- One smear step extends a block of set bits at the top of the word downwards. -/
theorem smear_step_top (x n i : Nat) (hi : i ≤ n)
    (h : ∀ j, 64 - n ≤ j → j < 64 → x.testBit j = true) :
    ∀ j, 64 - (n + i) ≤ j → j < 64 → (x ||| x >>> i).testBit j = true := by
  intro j hj hj64
  rw [Nat.testBit_or, Nat.testBit_shiftRight]
  by_cases hc : 64 - n ≤ j
  · simp [h j hc hj64]
  · have : x.testBit (i + j) = true := h (i + j) (by omega) (by omega)
    simp [this]

/-- Above `2 ^ 63` the increment of `nexthigher` wraps: the result is `0`. -/
theorem nexthigher_eq_zero (k : Nat) (h1 : 2 ^ 63 < k) (h2 : k < 2 ^ 64) : nexthigher k = 0 := by
  have hk0 : k ≠ 0 := by omega
  unfold nexthigher
  rw [if_neg hk0]
  have hlt : nexthigher_loop 64 1 (k - 1) < 2 ^ 64 := nexthigher_loop_lt 64 64 1 (k - 1) (by omega)
  have hbit : (k - 1).testBit 63 = true := by
    rw [Nat.testBit_to_div_mod]
    simp only [decide_eq_true_eq]
    omega
  have h0 : ∀ j, 64 - 1 ≤ j → j < 64 → (k - 1).testBit j = true := by
    intro j hj hj'
    have : j = 63 := by omega
    rw [this]; exact hbit
  have hall : ∀ j, j < 64 → (nexthigher_loop 64 1 (k - 1)).testBit j = true := by
    rw [nexthigher_loop_unroll]
    intro j hj
    have s1 := smear_step_top _ 1 1 (by omega) h0
    have s2 := smear_step_top _ 2 2 (by omega) s1
    have s3 := smear_step_top _ 4 4 (by omega) s2
    have s4 := smear_step_top _ 8 8 (by omega) s3
    have s5 := smear_step_top _ 16 16 (by omega) s4
    have s6 := smear_step_top _ 32 32 (by omega) s5
    exact s6 j (by omega) hj
  have hge : 2 ^ 64 - 1 ≤ nexthigher_loop 64 1 (k - 1) := by
    apply Nat.le_of_testBit
    intro i hi
    rw [Nat.testBit_two_pow_sub_one] at hi
    exact hall i (by simpa using hi)
  have : nexthigher_loop 64 1 (k - 1) = 2 ^ 64 - 1 := by omega
  rw [this]
  decide

/-- Outside the two tuned ranges the computed block size is
`nexthigher (size + sizeof(Allocator*))`. -/
theorem blockSizeFor_of_not_tuned (s : Nat) (h1 : ¬(256 < s ∧ s ≤ 396))
    (h2 : ¬(512 < s ∧ s ≤ 768)) :
    blockSizeFor s = nexthigher ((s + sizeof_AllocatorPtr) % SIZE_MOD) := by
  unfold blockSizeFor
  rw [if_neg h1, if_neg h2]

/-! ## C1: the computed block size against payload plus header -/

/-- C1 (as stated, refuted): the block size computed for a payload of `2 ^ 63` bytes is `0`
although `2 ^ 63 + 8` does not overflow `size_t`; and for the listed sizes 396 and 768 the
block sizes are 396 and 768, less than payload plus header. -/
theorem blockSizeFor_lt_payload_plus_header :
    (2 ^ 63 + sizeof_AllocatorPtr < SIZE_MOD ∧
        blockSizeFor (2 ^ 63) = 0 ∧ ¬ blockSizeFor (2 ^ 63) ≥ 2 ^ 63 + sizeof_AllocatorPtr) ∧
      (blockSizeFor 396 = 396 ∧ ¬ blockSizeFor 396 ≥ 396 + sizeof_AllocatorPtr) ∧
      (blockSizeFor 768 = 768 ∧ ¬ blockSizeFor 768 ≥ 768 + sizeof_AllocatorPtr) := by
  refine ⟨⟨by decide, by decide, by decide⟩, ⟨by decide, by decide⟩, ⟨by decide, by decide⟩⟩

/-- In the upper eight sizes of each tuned range the block is smaller than payload plus
header. -/
theorem blockSizeFor_lt_of_tuned_tail (s : Nat)
    (h : (388 < s ∧ s ≤ 396) ∨ (760 < s ∧ s ≤ 768)) :
    blockSizeFor s < s + sizeof_AllocatorPtr := by
  unfold blockSizeFor
  rcases h with h | h
  · rw [if_pos ⟨by omega, h.2⟩]; simp only [sizeof_AllocatorPtr]; omega
  · rw [if_neg (by omega), if_pos ⟨by omega, h.2⟩]; simp only [sizeof_AllocatorPtr]; omega

/-- Where the amended bound does not apply the block is smaller than payload plus header:
for `2 ^ 63 < s + h < 2 ^ 64` the block size is `0`, and in `389..396` and `761..768` it is
396 and 768. -/
theorem blockSizeFor_lt_of_excluded (s : Nat) (hs : s + sizeof_AllocatorPtr < SIZE_MOD)
    (h : 2 ^ 63 < s + sizeof_AllocatorPtr ∨ (388 < s ∧ s ≤ 396) ∨ (760 < s ∧ s ≤ 768)) :
    blockSizeFor s < s + sizeof_AllocatorPtr := by
  rcases h with h | h
  · simp only [sizeof_AllocatorPtr, SIZE_MOD] at hs h
    have hz : blockSizeFor s = 0 := by
      rw [blockSizeFor_of_not_tuned s (by omega) (by omega)]
      simp only [sizeof_AllocatorPtr, SIZE_MOD]
      rw [Nat.mod_eq_of_lt hs]
      exact nexthigher_eq_zero _ h hs
    rw [hz]; simp [sizeof_AllocatorPtr]
  · exact blockSizeFor_lt_of_tuned_tail s h

/-- The block size is at least payload plus header on the sizes
`0, 1, 255, 256, 257, 397, 511, 512, 513, 769, 4095, 4096`. -/
theorem blockSizeFor_ge_on_listed_sizes :
    ∀ s ∈ [0, 1, 255, 256, 257, 397, 511, 512, 513, 769, 4095, 4096],
      blockSizeFor s ≥ s + sizeof_AllocatorPtr := by
  decide

/-- C1 (amended): for every payload size `s` with `s + h ≤ 2 ^ 63` (`h = sizeof(Allocator*)`)
that lies outside `389..396` and `761..768`, the block size computed by
`xallocator_get_allocator` is at least `s + h`. -/
theorem blockSizeFor_ge_payload_plus_header (s : Nat) (hs : s + sizeof_AllocatorPtr ≤ 2 ^ 63)
    (h1 : ¬(388 < s ∧ s ≤ 396)) (h2 : ¬(760 < s ∧ s ≤ 768)) :
    blockSizeFor s ≥ s + sizeof_AllocatorPtr := by
  by_cases t1 : 256 < s ∧ s ≤ 396
  · have : blockSizeFor s = 396 := by unfold blockSizeFor; rw [if_pos t1]
    rw [this]; simp only [sizeof_AllocatorPtr]; omega
  · by_cases t2 : 512 < s ∧ s ≤ 768
    · have : blockSizeFor s = 768 := by unfold blockSizeFor; rw [if_neg t1, if_pos t2]
      rw [this]; simp only [sizeof_AllocatorPtr]; omega
    · rw [blockSizeFor_of_not_tuned s t1 t2]
      have hlt : s + sizeof_AllocatorPtr < SIZE_MOD := by
        simp only [SIZE_MOD]; omega
      rw [Nat.mod_eq_of_lt hlt]
      exact le_nexthigher _ hs

/-- C1 (amended), applied at a payload of 4096 bytes. -/
theorem blockSizeFor_ge_payload_plus_header_witness :
    blockSizeFor 4096 ≥ 4096 + sizeof_AllocatorPtr :=
  blockSizeFor_ge_payload_plus_header 4096 (by decide) (by decide) (by decide)

/-! ## Frame lemmas for the primitive steps -/

@[simp] theorem log_allocators (st : State) (e : Event) : (st.log e).allocators = st.allocators := rfl
@[simp] theorem log_heap (st : State) (e : Event) : (st.log e).heap = st.heap := rfl
@[simp] theorem log_next (st : State) (e : Event) : (st.log e).next = st.next := rfl
@[simp] theorem log_mem (st : State) (e : Event) : (st.log e).mem = st.mem := rfl

@[simp] theorem lock_get_allocators (st : State) : (lock_get st).allocators = st.allocators := by
  unfold lock_get; split <;> rfl
@[simp] theorem lock_get_heap (st : State) : (lock_get st).heap = st.heap := by
  unfold lock_get; split <;> rfl
@[simp] theorem lock_get_next (st : State) : (lock_get st).next = st.next := by
  unfold lock_get; split <;> rfl
@[simp] theorem lock_get_mem (st : State) : (lock_get st).mem = st.mem := by
  unfold lock_get; split <;> rfl

@[simp] theorem lock_release_allocators (st : State) :
    (lock_release st).allocators = st.allocators := by
  unfold lock_release; split <;> rfl
@[simp] theorem lock_release_heap (st : State) : (lock_release st).heap = st.heap := by
  unfold lock_release; split <;> rfl
@[simp] theorem lock_release_next (st : State) : (lock_release st).next = st.next := by
  unfold lock_release; split <;> rfl
@[simp] theorem lock_release_mem (st : State) : (lock_release st).mem = st.mem := by
  unfold lock_release; split <;> rfl

@[simp] theorem Allocate_fst (st : State) (a size raw : Nat) : (Allocate st a size raw).1 = raw := by
  unfold Allocate; split
  · next h => exact h.symm
  · rfl
@[simp] theorem Allocate_allocators (st : State) (a size raw : Nat) :
    (Allocate st a size raw).2.allocators = st.allocators := by
  unfold Allocate; split <;> rfl
@[simp] theorem Allocate_next (st : State) (a size raw : Nat) :
    (Allocate st a size raw).2.next = st.next := by
  unfold Allocate; split <;> rfl
@[simp] theorem Allocate_mem (st : State) (a size raw : Nat) :
    (Allocate st a size raw).2.mem = st.mem := by
  unfold Allocate; split <;> rfl
@[simp] theorem Allocate_blockSize (st : State) (a size raw x : Nat) :
    ((Allocate st a size raw).2.heap x).blockSize = (st.heap x).blockSize := by
  unfold Allocate; split
  · rfl
  · by_cases hx : x = a
    · simp [hx]
    · simp [hx]

/-- A failed `Allocate` leaves every Pool as it was. -/
theorem Allocate_heap_of_null (st : State) (a size : Nat) : (Allocate st a size 0).2.heap = st.heap := by
  simp [Allocate]

/-- A successful `Allocate` on the Pool at `a` raises its blocks-in-use count by one. -/
theorem Allocate_blocksInUse_self (st : State) (a size raw : Nat) (h : raw ≠ 0) :
    ((Allocate st a size raw).2.heap a).blocksInUse = (st.heap a).blocksInUse + 1 := by
  simp [Allocate, h]

/-- Function `Allocate` on the Pool at `a` leaves every other Pool as it was. -/
theorem Allocate_heap_other (st : State) (a size raw x : Nat) (h : x ≠ a) :
    (Allocate st a size raw).2.heap x = st.heap x := by
  unfold Allocate; split
  · rfl
  · simp [h]

@[simp] theorem Deallocate_allocators (st : State) (a b : Nat) :
    (Deallocate st a b).allocators = st.allocators := rfl
@[simp] theorem Deallocate_next (st : State) (a b : Nat) : (Deallocate st a b).next = st.next := rfl
@[simp] theorem Deallocate_mem (st : State) (a b : Nat) : (Deallocate st a b).mem = st.mem := rfl
@[simp] theorem Deallocate_blockSize (st : State) (a b x : Nat) :
    ((Deallocate st a b).heap x).blockSize = (st.heap x).blockSize := by
  by_cases hx : x = a
  · simp [Deallocate, hx]
  · simp [Deallocate, hx]

/-- Function `Deallocate` on the Pool at `a` lowers its blocks-in-use count by one. -/
theorem Deallocate_blocksInUse_self (st : State) (a b : Nat) :
    ((Deallocate st a b).heap a).blocksInUse = (st.heap a).blocksInUse - 1 := by
  simp [Deallocate]

/-- Function `Deallocate` on the Pool at `a` leaves every other Pool as it was. -/
theorem Deallocate_heap_other (st : State) (a b x : Nat) (h : x ≠ a) :
    (Deallocate st a b).heap x = st.heap x := by
  simp [Deallocate, h]

@[simp] theorem set_block_allocator_fst (st : State) (block a : Nat) :
    (set_block_allocator st block a).1 = block + sizeof_AllocatorPtr := rfl
@[simp] theorem set_block_allocator_allocators (st : State) (block a : Nat) :
    (set_block_allocator st block a).2.allocators = st.allocators := rfl
@[simp] theorem set_block_allocator_heap (st : State) (block a : Nat) :
    (set_block_allocator st block a).2.heap = st.heap := rfl
@[simp] theorem set_block_allocator_next (st : State) (block a : Nat) :
    (set_block_allocator st block a).2.next = st.next := rfl
@[simp] theorem set_block_allocator_trace (st : State) (block a : Nat) :
    (set_block_allocator st block a).2.trace = st.trace := rfl

@[simp] theorem memcpy_allocators (st : State) (d s n : Nat) :
    (memcpy st d s n).allocators = st.allocators := rfl
@[simp] theorem memcpy_heap (st : State) (d s n : Nat) : (memcpy st d s n).heap = st.heap := rfl
@[simp] theorem memcpy_next (st : State) (d s n : Nat) : (memcpy st d s n).next = st.next := rfl

/-! ## Block header codec: lemmas -/

/-- A 64-bit pointer stored at `r` is the pointer loaded from `r`. -/
theorem loadPtr_storePtr (mem : Nat → Nat) (r a : Nat) (ha : a < SIZE_MOD) :
    loadPtr (storePtr mem r a) r = a := by
  simp only [SIZE_MOD] at ha
  simp [loadPtr, storePtr, sizeof_AllocatorPtr, List.range_succ]
  omega

/-- The header codec round trip on states. -/
theorem get_block_allocator_set_block_allocator (st : State) (r a : Nat) (ha : a < SIZE_MOD) :
    get_block_allocator (set_block_allocator st r a).2 (set_block_allocator st r a).1 = a := by
  simp only [get_block_allocator, set_block_allocator, Nat.add_sub_cancel]
  exact loadPtr_storePtr st.mem r a ha

/-- The raw block pointer is recovered from the client pointer. -/
theorem get_block_ptr_set_block_allocator (st : State) (r a : Nat) :
    get_block_ptr (set_block_allocator st r a).1 = r := by
  simp [get_block_ptr, set_block_allocator]

/-- The header is read from memory only: states with the same memory give the same owner. -/
theorem get_block_allocator_congr (st st' : State) (p : Nat) (h : st'.mem = st.mem) :
    get_block_allocator st' p = get_block_allocator st p := by
  simp [get_block_allocator, h]

/-! ## Registry: lemmas on the loops -/

theorem populated_nil : populated [] = [] := rfl

theorem populated_cons_zero (rest : List Nat) : populated (0 :: rest) = [] := by
  simp [populated, List.takeWhile_cons]

theorem populated_cons_ne {a : Nat} (ha : a ≠ 0) (rest : List Nat) :
    populated (a :: rest) = a :: populated rest := by
  simp [populated, List.takeWhile_cons, ha]

theorem mem_populated {a : Nat} : ∀ {l : List Nat}, a ∈ populated l → a ∈ l ∧ a ≠ 0 := by
  intro l
  induction l with
  | nil => intro h; simp [populated_nil] at h
  | cons b rest ih =>
    intro h
    by_cases hb : b = 0
    · subst hb; simp [populated_cons_zero] at h
    · rw [populated_cons_ne hb] at h
      rcases List.mem_cons.mp h with h1 | h1
      · subst h1; exact ⟨List.mem_cons_self _ _, hb⟩
      · exact ⟨List.mem_cons_of_mem b (ih h1).1, (ih h1).2⟩

theorem find_allocator_loop_nil (st : State) (size : Nat) :
    find_allocator_loop st size [] = 0 := rfl

theorem find_allocator_loop_cons_zero (st : State) (size : Nat) (rest : List Nat) :
    find_allocator_loop st size (0 :: rest) = 0 := by
  simp [find_allocator_loop]

theorem find_allocator_loop_cons_ne (st : State) (size : Nat) {a : Nat} (ha : a ≠ 0)
    (rest : List Nat) :
    find_allocator_loop st size (a :: rest) =
      if GetBlockSize st a = size then a else find_allocator_loop st size rest := by
  simp [find_allocator_loop, ha]

theorem insert_allocator_loop_cons_zero (x : Nat) (rest : List Nat) :
    insert_allocator_loop x (0 :: rest) = some (x :: rest) := by
  simp [insert_allocator_loop]

theorem insert_allocator_loop_cons_ne (x : Nat) {a : Nat} (ha : a ≠ 0) (rest : List Nat) :
    insert_allocator_loop x (a :: rest) = (insert_allocator_loop x rest).map (a :: ·) := by
  simp [insert_allocator_loop, ha]

/-- A hit of `find_allocator` is a populated slot with the requested block size. -/
theorem find_allocator_loop_hit (st : State) (size : Nat) :
    ∀ l, find_allocator_loop st size l ≠ 0 →
      find_allocator_loop st size l ∈ populated l ∧
        GetBlockSize st (find_allocator_loop st size l) = size := by
  intro l
  induction l with
  | nil => intro h; simp [find_allocator_loop] at h
  | cons a rest ih =>
    intro h
    by_cases ha : a = 0
    · subst ha; simp [find_allocator_loop_cons_zero] at h
    · rw [find_allocator_loop_cons_ne st size ha] at h ⊢
      rw [populated_cons_ne ha]
      by_cases hs : GetBlockSize st a = size
      · rw [if_pos hs]
        exact ⟨List.mem_cons_self _ _, hs⟩
      · rw [if_neg hs] at h ⊢
        exact ⟨List.mem_cons_of_mem a (ih h).1, (ih h).2⟩

/-- Function `find_allocator` misses exactly when no populated slot has the requested block size. -/
theorem find_allocator_loop_eq_zero (st : State) (size : Nat) :
    ∀ l, find_allocator_loop st size l = 0 ↔ ∀ a ∈ populated l, GetBlockSize st a ≠ size := by
  intro l
  induction l with
  | nil => simp [find_allocator_loop, populated]
  | cons a rest ih =>
    by_cases ha : a = 0
    · subst ha; simp [find_allocator_loop_cons_zero, populated_cons_zero]
    · rw [find_allocator_loop_cons_ne st size ha, populated_cons_ne ha]
      by_cases hs : GetBlockSize st a = size
      · rw [if_pos hs]
        simp only [ha, false_iff]
        intro hall
        exact hall a (List.mem_cons_self _ _) hs
      · rw [if_neg hs, ih]
        simp [hs]

/-- Function `find_allocator` reads the Pools' block sizes only. -/
theorem find_allocator_loop_congr (st st' : State) (size : Nat) :
    ∀ l, (∀ a ∈ l, GetBlockSize st' a = GetBlockSize st a) →
      find_allocator_loop st' size l = find_allocator_loop st size l := by
  intro l
  induction l with
  | nil => intro _; rfl
  | cons a rest ih =>
    intro h
    unfold find_allocator_loop
    rw [h a (List.mem_cons_self a rest), ih fun x hx => h x (List.mem_cons_of_mem a hx)]

/-- After a successful `insert_allocator` every slot holds an old entry or the new Pool. -/
theorem insert_allocator_loop_mem (x : Nat) :
    ∀ l l', insert_allocator_loop x l = some l' → ∀ y ∈ l', y ∈ l ∨ y = x := by
  intro l
  induction l with
  | nil => intro l' h; simp [insert_allocator_loop] at h
  | cons a rest ih =>
    intro l' h y hy
    unfold insert_allocator_loop at h
    by_cases ha : a = 0
    · rw [if_pos ha] at h
      cases h
      rcases List.mem_cons.mp hy with h1 | h1
      · exact Or.inr h1
      · exact Or.inl (List.mem_cons_of_mem a h1)
    · rw [if_neg ha] at h
      cases hr : insert_allocator_loop x rest with
      | none => rw [hr] at h; simp at h
      | some r =>
        rw [hr] at h
        simp only [Option.map_some', Option.some.injEq] at h
        subst h
        rcases List.mem_cons.mp hy with h1 | h1
        · exact Or.inl (h1 ▸ List.mem_cons_self a rest)
        · rcases ih r hr y h1 with h2 | h2
          · exact Or.inl (List.mem_cons_of_mem a h2)
          · exact Or.inr h2

/-- After a successful `insert_allocator` the new Pool is in the registry. -/
theorem insert_allocator_loop_self_mem (x : Nat) :
    ∀ l l', insert_allocator_loop x l = some l' → x ∈ l' := by
  intro l
  induction l with
  | nil => intro l' h; simp [insert_allocator_loop] at h
  | cons a rest ih =>
    intro l' h
    unfold insert_allocator_loop at h
    by_cases ha : a = 0
    · rw [if_pos ha] at h
      cases h
      exact List.mem_cons_self x rest
    · rw [if_neg ha] at h
      cases hr : insert_allocator_loop x rest with
      | none => rw [hr] at h; simp at h
      | some r =>
        rw [hr] at h
        simp only [Option.map_some', Option.some.injEq] at h
        subst h
        exact List.mem_cons_of_mem a (ih r hr)

/-- A hit of `find_allocator` is not disturbed by a later `insert_allocator`. -/
theorem find_allocator_loop_insert_of_hit (st : State) (size x : Nat) :
    ∀ l l', insert_allocator_loop x l = some l' → find_allocator_loop st size l ≠ 0 →
      find_allocator_loop st size l' = find_allocator_loop st size l := by
  intro l
  induction l with
  | nil => intro l' h; simp [insert_allocator_loop] at h
  | cons a rest ih =>
    intro l' h hf
    unfold insert_allocator_loop at h
    by_cases ha : a = 0
    · exfalso; apply hf; simp [find_allocator_loop, ha]
    · rw [if_neg ha] at h
      cases hr : insert_allocator_loop x rest with
      | none => rw [hr] at h; simp at h
      | some r =>
        rw [hr] at h
        simp only [Option.map_some', Option.some.injEq] at h
        subst h
        rw [find_allocator_loop_cons_ne st size ha] at hf
        rw [find_allocator_loop_cons_ne st size ha r, find_allocator_loop_cons_ne st size ha rest]
        by_cases hs : GetBlockSize st a = size
        · rw [if_pos hs, if_pos hs]
        · rw [if_neg hs] at hf
          rw [if_neg hs, if_neg hs]
          exact ih r hr hf

/-- After a miss, the freshly inserted Pool is what `find_allocator` returns. -/
theorem find_allocator_loop_insert_of_miss (st : State) (size x : Nat) (hx : x ≠ 0)
    (hsz : GetBlockSize st x = size) :
    ∀ l l', insert_allocator_loop x l = some l' → find_allocator_loop st size l = 0 →
      find_allocator_loop st size l' = x := by
  intro l
  induction l with
  | nil => intro l' h; simp [insert_allocator_loop] at h
  | cons a rest ih =>
    intro l' h hf
    unfold insert_allocator_loop at h
    by_cases ha : a = 0
    · rw [if_pos ha] at h
      cases h
      simp [find_allocator_loop, hx, hsz]
    · rw [if_neg ha] at h
      cases hr : insert_allocator_loop x rest with
      | none => rw [hr] at h; simp at h
      | some r =>
        rw [hr] at h
        simp only [Option.map_some', Option.some.injEq] at h
        subst h
        rw [find_allocator_loop_cons_ne st size ha] at hf ⊢
        by_cases hs : GetBlockSize st a = size
        · rw [if_pos hs] at hf; exact absurd hf ha
        · rw [if_neg hs] at hf ⊢
          exact ih r hr hf

/-! ## `xallocator_get_allocator` and `xmalloc`: what a successful call did -/

theorem Allocate_trace (st : State) (a size raw : Nat) :
    (Allocate st a size raw).2.trace = st.trace ++ [Event.poolAllocate a size raw] := by
  unfold Allocate; split
  · next h => subst h; rfl
  · rfl

theorem lock_release_trace_mem (st : State) (e : Event) (h : e ∈ st.trace) :
    e ∈ (lock_release st).trace := by
  unfold lock_release; split
  · exact h
  · exact List.mem_append_left _ h

/-- A successful `xallocator_get_allocator` either found the Pool and changed nothing, or
missed, created a Pool at the fresh address and inserted it. -/
theorem xallocator_get_allocator_cases (st : State) (s a : Nat) (st1 : State)
    (h : xallocator_get_allocator st s = some (a, st1)) :
    (find_allocator st (blockSizeFor s) = a ∧ a ≠ 0 ∧ st1 = st) ∨
      (find_allocator st (blockSizeFor s) = 0 ∧ a = st.next ∧
        ∃ l, insert_allocator_loop st.next st.allocators = some l ∧
          st1 = { (new_Allocator st (blockSizeFor s)).2 with allocators := l }) := by
  unfold xallocator_get_allocator at h
  by_cases hf : find_allocator st (blockSizeFor s) = 0
  · right
    simp only [hf, if_true, insert_allocator, new_Allocator] at h
    cases hi : insert_allocator_loop st.next st.allocators with
    | none => rw [hi] at h; simp at h
    | some l =>
      rw [hi] at h
      simp only [Option.map_some', Option.some.injEq, Prod.mk.injEq] at h
      exact ⟨hf, h.1.symm, l, rfl, h.2.symm⟩
  · left
    simp only [hf, if_false, Option.some.injEq, Prod.mk.injEq] at h
    exact ⟨h.1, h.1 ▸ hf, h.2.symm⟩

/-- A successful `xmalloc` is a successful `xallocator_get_allocator` under the lock, one
`Allocate` on the Pool it returned, and the header store. -/
theorem xmalloc_eq_some (st : State) (s raw p : Nat) (st' : State)
    (h : xmalloc st s raw = some (p, st')) :
    ∃ a st1, xallocator_get_allocator (lock_get st) s = some (a, st1) ∧
      p = raw + sizeof_AllocatorPtr ∧
      st' = (set_block_allocator (lock_release (Allocate st1 a s raw).2) raw a).2 := by
  unfold xmalloc at h
  cases hg : xallocator_get_allocator (lock_get st) s with
  | none => simp [hg] at h
  | some r =>
    obtain ⟨a, st1⟩ := r
    simp only [hg, Allocate_fst, Option.some.injEq] at h
    refine ⟨a, st1, rfl, ?_, ?_⟩
    · exact (congrArg Prod.fst h).symm
    · exact (congrArg Prod.snd h).symm

theorem HeapOK.fresh {st : State} (h : HeapOK st) : FreshNext st := ⟨h.1, h.2.2⟩

/-- The Pool returned by a successful `xallocator_get_allocator` is a non-null registered
Pool with the block size computed for the request; it is either an already registered Pool,
and then nothing changed, or the Pool just created at the fresh address. -/
theorem xallocator_get_allocator_spec (st : State) (s a : Nat) (st1 : State) (hok : FreshNext st)
    (h : xallocator_get_allocator st s = some (a, st1)) :
    a ≠ 0 ∧ a ≤ st.next ∧ a ∈ st1.allocators ∧ GetBlockSize st1 a = blockSizeFor s ∧
      (a ∈ st.allocators → st1 = st) ∧
      (a ∉ st.allocators → a = st.next ∧ (st1.heap a).blocksInUse = 0) ∧
      ∀ b, b ≠ a → st1.heap b = st.heap b := by
  obtain ⟨h0, hreg⟩ := hok
  rcases xallocator_get_allocator_cases st s a st1 h with ⟨hf, ha, rfl⟩ | ⟨hf, ha, l, hl, rfl⟩
  · have hne : find_allocator_loop st1 (blockSizeFor s) st1.allocators ≠ 0 := by
      intro hz; apply ha; rw [← hf]; exact hz
    obtain ⟨hm, hs⟩ := find_allocator_loop_hit st1 (blockSizeFor s) _ hne
    have hf' : find_allocator_loop st1 (blockSizeFor s) st1.allocators = a := hf
    rw [hf'] at hm hs
    have hmem : a ∈ st1.allocators := (mem_populated hm).1
    exact ⟨ha, le_of_lt (hreg a hmem), hmem, hs, fun _ => rfl,
      fun hn => absurd hmem hn, fun _ _ => rfl⟩
  · subst ha
    refine ⟨by omega, le_refl _, insert_allocator_loop_self_mem _ _ _ hl, ?_, ?_, ?_, ?_⟩
    · simp [GetBlockSize, new_Allocator]
    · intro hm; exact absurd (hreg _ hm) (lt_irrefl _)
    · intro _; simp [new_Allocator]
    · intro b hb; simp [new_Allocator, hb]

/-! ## C3: Pool failure inside `xmalloc` -/

/-- On Pool failure a returning `xmalloc` still stores the header, at address `0`, and
returns the address `sizeof(Allocator*)`, which is not `NULL`. -/
theorem xmalloc_of_pool_failure (st : State) (s p : Nat) (st' : State)
    (h : xmalloc st s 0 = some (p, st')) :
    p = sizeof_AllocatorPtr ∧ p ≠ 0 ∧
      ∃ a, a ∈ st'.allocators ∧ st'.mem = storePtr st.mem 0 a := by
  obtain ⟨a, st1, hg, hp, hst⟩ := xmalloc_eq_some st s 0 p st' h
  refine ⟨by simpa using hp, by rw [hp]; decide, a, ?_, ?_⟩
  · rw [hst]
    rcases xallocator_get_allocator_cases _ s a st1 hg with ⟨hf, ha, rfl⟩ | ⟨hf, ha, l, hl, rfl⟩
    · have hne : find_allocator_loop (lock_get st) (blockSizeFor s) (lock_get st).allocators ≠ 0 := by
        intro hz; apply ha; rw [← hf]; exact hz
      have hm := (find_allocator_loop_hit _ _ _ hne).1
      have hf' : find_allocator_loop (lock_get st) (blockSizeFor s) (lock_get st).allocators = a := hf
      rw [hf'] at hm
      simpa using (mem_populated hm).1
    · subst ha
      simpa using insert_allocator_loop_self_mem _ _ _ hl
  · rw [hst]
    rcases xallocator_get_allocator_cases _ s a st1 hg with ⟨_, _, rfl⟩ | ⟨_, _, l, _, rfl⟩
    · simp [set_block_allocator]
    · simp [set_block_allocator, new_Allocator]

/-- Whenever the Pool supplies a raw block `r`, a returning `xmalloc` returns
`r + sizeof(Allocator*)`, which is not `NULL`. -/
theorem xmalloc_of_pool_success (st : State) (s r p : Nat) (st' : State)
    (h : xmalloc st s r = some (p, st')) : p = r + sizeof_AllocatorPtr ∧ p ≠ 0 := by
  obtain ⟨a, st1, _, hp, _⟩ := xmalloc_eq_some st s r p st' h
  refine ⟨hp, ?_⟩
  rw [hp]; simp [sizeof_AllocatorPtr]

/-- C3 (the code at the failing input): from the start state with zeroed memory,
`xmalloc(10)` with the Pool failing to supply a block returns the non-null pointer `8` and
has written the header of Pool `1` at address `0`; the claim asks for a null result and no
header write. -/
theorem xmalloc_pool_failure_returns_nonnull :
    (xmalloc (initialState fun _ => 0) 10 0).map (fun r => (r.1, r.2.mem 0, r.2.allocators.head?))
        = some (8, 1, some 1) ∧
      (initialState fun _ => 0).mem 0 = 0 := by
  decide

/-! ## C4: header integrity -/

/-- C4: for a returning `xmalloc(s)` whose Pool handed out the raw block `r`, the returned
pointer `p` satisfies `get_block_allocator(p) =` that Pool, `get_block_ptr(p) = r`,
`p = r + sizeof(Allocator*)`, and the Pool is a non-null registered Pool whose configured
block size is the block size computed for `s`; and for every raw block `blk` and 64-bit
Pool pointer `a'`, `get_block_allocator(set_block_allocator(blk, a')) = a'` and
`get_block_ptr(set_block_allocator(blk, a')) = blk`. -/
theorem xmalloc_header_integrity (st : State) (s r p : Nat) (st' : State) (blk a' : Nat)
    (hok : HeapOK st) (ha' : a' < SIZE_MOD) (h : xmalloc st s r = some (p, st')) :
    (∃ a st1, xallocator_get_allocator (lock_get st) s = some (a, st1) ∧
        Event.poolAllocate a s r ∈ st'.trace ∧
        get_block_allocator st' p = a ∧ get_block_ptr p = r ∧ p = r + sizeof_AllocatorPtr ∧
        a ≠ 0 ∧ a ∈ st'.allocators ∧ GetBlockSize st' a = blockSizeFor s) ∧
      get_block_allocator (set_block_allocator st blk a').2 (set_block_allocator st blk a').1 = a' ∧
      get_block_ptr (set_block_allocator st blk a').1 = blk := by
  refine ⟨?_, get_block_allocator_set_block_allocator st blk a' ha',
    get_block_ptr_set_block_allocator st blk a'⟩
  obtain ⟨a, st1, hg, hp, hst⟩ := xmalloc_eq_some st s r p st' h
  have hok' : HeapOK (lock_get st) := by
    obtain ⟨h0, h64, hreg⟩ := hok
    exact ⟨by simpa using h0, by simpa using h64, by simpa using hreg⟩
  obtain ⟨hne, hle, hmem, hbs, _, _, _⟩ := xallocator_get_allocator_spec _ s a st1 hok'.fresh hg
  have h64 : a < SIZE_MOD := lt_of_le_of_lt hle hok'.2.1
  refine ⟨a, st1, hg, ?_, ?_, ?_, hp, hne, ?_, ?_⟩
  · rw [hst, set_block_allocator_trace]
    apply lock_release_trace_mem
    rw [Allocate_trace]
    simp
  · rw [hst, hp]
    exact get_block_allocator_set_block_allocator _ r a h64
  · rw [hp]; simp [get_block_ptr]
  · rw [hst]; simpa using hmem
  · rw [hst]
    simp only [GetBlockSize, set_block_allocator_heap, lock_release_heap, Allocate_blockSize]
    exact hbs

/-- C4, applied to `xmalloc(10)` from the start state with the Pool handing out the raw
block at `4096`. -/
theorem xmalloc_header_integrity_witness :
    ∃ st', xmalloc (initialState fun _ => 0) 10 4096 = some (4104, st') ∧
      get_block_allocator st' 4104 = 1 ∧ get_block_ptr 4104 = 4096 ∧
      GetBlockSize st' 1 = blockSizeFor 10 := by
  have hx : ∃ st', xmalloc (initialState fun _ => 0) 10 4096 = some (4104, st') :=
    ⟨_, rfl⟩
  obtain ⟨st', hst⟩ := hx
  have hok : HeapOK (initialState fun _ => 0) := by
    refine ⟨by decide, by decide, ?_⟩
    intro a ha
    simp [initialState] at ha
    simp [ha.2, initialState]
  obtain ⟨⟨a, st1, hg, _, h1, h2, _, _, _, h3⟩, _, _⟩ :=
    xmalloc_header_integrity (initialState fun _ => 0) 10 4096 4104 st' 0 1 hok (by decide) hst
  have ha : a = 1 := by
    have : xallocator_get_allocator (lock_get (initialState fun _ => 0)) 10
        = some (1, (new_Allocator (initialState fun _ => 0) 32).2 |> fun s =>
            { s with allocators := 1 :: List.replicate 14 0 }) := by rfl
    rw [this] at hg
    simp only [Option.some.injEq, Prod.mk.injEq] at hg
    exact hg.1.symm
  subst ha
  exact ⟨st', hst, h1, h2, h3⟩

/-! ## C5: allocate/deallocate round trip -/

theorem HeapOK_lock_get (st : State) (hok : HeapOK st) : HeapOK (lock_get st) := by
  obtain ⟨h0, h64, hreg⟩ := hok
  exact ⟨by simpa using h0, by simpa using h64, by simpa using hreg⟩

/-- The start state satisfies `HeapOK`. -/
theorem HeapOK_initialState (mem : Nat → Nat) : HeapOK (initialState mem) := by
  refine ⟨by simp [initialState], by simp [initialState, SIZE_MOD], ?_⟩
  intro a ha
  simp [initialState] at ha
  simp [ha.2, initialState]

/-- Function `xfree` of a non-null pointer whose header names the Pool `a` hands the raw block
before the pointer back to `a`. -/
theorem xfree_eq_Deallocate (st : State) (p : Nat) (hp : p ≠ 0) :
    xfree st p =
      lock_release (Deallocate (lock_get st) (get_block_allocator st p) (get_block_ptr p)) := by
  unfold xfree
  rw [if_neg hp]

/-- C5: when `xmalloc(s)` returns `p` and the Pool issued the raw block `r` for it,
`xfree(p)` hands exactly `r` back to the Pool `a` that issued it; afterwards the
blocks-in-use count of `a` is what it was before the `xmalloc` (zero for a Pool that the
`xmalloc` created), and the count of every other Pool is unchanged by both calls. -/
theorem xfree_xmalloc_round_trip (st : State) (s r p : Nat) (st1 : State) (hok : HeapOK st)
    (hr : r ≠ 0) (h : xmalloc st s r = some (p, st1)) :
    ∃ a, Event.poolAllocate a s r ∈ st1.trace ∧ a ∈ st1.allocators ∧
      xfree st1 p = lock_release (Deallocate (lock_get st1) a r) ∧
      GetBlocksInUse (xfree st1 p) a = (if a ∈ st.allocators then GetBlocksInUse st a else 0) ∧
      ∀ b, b ≠ a →
        GetBlocksInUse st1 b = GetBlocksInUse st b ∧
          GetBlocksInUse (xfree st1 p) b = GetBlocksInUse st b := by
  obtain ⟨a, st0, hg, hp, hst⟩ := xmalloc_eq_some st s r p st1 h
  obtain ⟨hne, hle, hmem, _, hold, hnew, hoth⟩ :=
    xallocator_get_allocator_spec _ s a st0 (HeapOK_lock_get st hok).fresh hg
  have h64 : a < SIZE_MOD := lt_of_le_of_lt hle (HeapOK_lock_get st hok).2.1
  have hp0 : p ≠ 0 := by rw [hp]; simp [sizeof_AllocatorPtr]
  have hown : get_block_allocator st1 p = a := by
    rw [hst, hp]; exact get_block_allocator_set_block_allocator _ r a h64
  have hraw : get_block_ptr p = r := by rw [hp]; simp [get_block_ptr]
  have hfree : xfree st1 p = lock_release (Deallocate (lock_get st1) a r) := by
    rw [xfree_eq_Deallocate st1 p hp0, hown, hraw]
  have hheap1 : st1.heap = (Allocate st0 a s r).2.heap := by rw [hst]; simp
  refine ⟨a, ?_, ?_, hfree, ?_, ?_⟩
  · rw [hst, set_block_allocator_trace]
    apply lock_release_trace_mem
    rw [Allocate_trace]; simp
  · rw [hst]; simpa using hmem
  · rw [hfree]
    simp only [GetBlocksInUse, lock_release_heap, Deallocate_blocksInUse_self, lock_get_heap,
      hheap1, Allocate_blocksInUse_self st0 a s r hr, Nat.add_sub_cancel]
    by_cases hin : a ∈ st.allocators
    · rw [if_pos hin]
      have : st0 = lock_get st := hold (by simpa using hin)
      rw [this, lock_get_heap]
    · rw [if_neg hin]
      exact (hnew (by simpa using hin)).2
  · intro b hb
    have h1 : st1.heap b = st.heap b := by
      rw [hheap1, Allocate_heap_other st0 a s r b hb, hoth b hb, lock_get_heap]
    refine ⟨by simp [GetBlocksInUse, h1], ?_⟩
    rw [hfree]
    simp only [GetBlocksInUse, lock_release_heap]
    rw [Deallocate_heap_other _ a r b hb, lock_get_heap, h1]

/-- C5, applied to `xmalloc(10)` from the start state with the Pool issuing the raw block
at `4096`: the freed Pool is back at zero blocks in use. -/
theorem xfree_xmalloc_round_trip_witness :
    ∃ st1 a, xmalloc (initialState fun _ => 0) 10 4096 = some (4104, st1) ∧
      xfree st1 4104 = lock_release (Deallocate (lock_get st1) a 4096) ∧
      GetBlocksInUse (xfree st1 4104) a =
        (if a ∈ (initialState fun _ => 0).allocators
          then GetBlocksInUse (initialState fun _ => 0) a else 0) := by
  have hx : ∃ st', xmalloc (initialState fun _ => 0) 10 4096 = some (4104, st') :=
    ⟨_, rfl⟩
  obtain ⟨st1, hst⟩ := hx
  obtain ⟨a, _, _, h1, h2, _⟩ :=
    xfree_xmalloc_round_trip (initialState fun _ => 0) 10 4096 4104 st1
      (HeapOK_initialState _) (by decide) hst
  exact ⟨st1, a, hst, h1, h2⟩

/-! ## C6: degenerate cases of `xrealloc` -/

/-- C6: `xrealloc(NULL, n)` returns the same pointer and leaves the same state as
`xmalloc(n)`, for every `n` (zero included); and for every non-null `p`, `xrealloc(p, 0)`
returns `NULL` and leaves the same state as `xfree(p)`. -/
theorem xrealloc_degenerate_cases (st : State) (n raw p : Nat) (hp : p ≠ 0) :
    xrealloc st 0 n raw = xmalloc st n raw ∧ xrealloc st p 0 raw = some (0, xfree st p) := by
  constructor
  · simp [xrealloc]
  · simp [xrealloc, hp]

/-- C6, applied at `xrealloc(NULL, 50)` and at `xrealloc(4104, 0)` from the start state. -/
theorem xrealloc_degenerate_cases_witness :
    xrealloc (initialState fun _ => 0) 0 50 4096 = xmalloc (initialState fun _ => 0) 50 4096 ∧
      xrealloc (initialState fun _ => 0) 4104 0 4096
        = some (0, xfree (initialState fun _ => 0) 4104) :=
  xrealloc_degenerate_cases (initialState fun _ => 0) 50 4096 4104 (by decide)

/-! ## C10: a failed new allocation inside `xrealloc` -/

/-- C10 (the code at the failing input): from the start state, `p = xmalloc(10)` gets the
raw block at `4096` from Pool `1`; then `xrealloc(p, 1000)` with the Pool failing to supply a
block returns the non-null pointer `8` and deallocates the old block (blocks in use of
Pool `1` drop from 1 to 0); the claim asks for `NULL` and an untouched old block. -/
theorem xrealloc_pool_failure_frees_old_block :
    ((xmalloc (initialState fun _ => 0) 10 4096).bind fun r1 =>
        (xrealloc r1.2 r1.1 1000 0).map fun r2 =>
          (r1.1, get_block_allocator r1.2 r1.1, GetBlocksInUse r1.2 1, r2.1,
            GetBlocksInUse r2.2 1, r2.2.trace.getLast?))
      = some (4104, 1, 1, 8, 0, some (Event.poolDeallocate 1 4096)) := by
  rfl

/-! ## C2: data preservation across `xrealloc` -/

/-- C2 (the code at the failing input): `p = xmalloc(396)` is served from the 396-byte Pool,
the caller stores 396 bytes of value 171 at `p`, and `q = xrealloc(p, 1000)` succeeds;
`xrealloc` copied 388 bytes only, so byte 387 of `q` is 171 but byte 388 of `q` is not the
171 that was at byte 388 of `p`. -/
theorem xrealloc_396_drops_tail :
    ((xmalloc (initialState fun _ => 0) 396 4096).bind fun r1 =>
        (xrealloc (client_write r1.2 r1.1 396 fun _ => 171) r1.1 1000 8192).map fun r2 =>
          (r1.1, GetBlockSize r1.2 (get_block_allocator r1.2 r1.1),
            (client_write r1.2 r1.1 396 fun _ => 171).mem (r1.1 + 387),
            (client_write r1.2 r1.1 396 fun _ => 171).mem (r1.1 + 388),
            r2.1, r2.2.mem (r2.1 + 387), r2.2.mem (r2.1 + 388)))
      = some (4104, 396, 171, 171, 8200, 171, 0) := by
  rfl

/-! ## Steps that leave the registry alone -/

theorem SameRegistry.refl (st : State) : SameRegistry st st := ⟨rfl, rfl, fun _ => rfl⟩

theorem SameRegistry.trans {a b c : State} (h1 : SameRegistry a b) (h2 : SameRegistry b c) :
    SameRegistry a c :=
  ⟨h2.1.trans h1.1, h2.2.1.trans h1.2.1, fun x => (h2.2.2 x).trans (h1.2.2 x)⟩

theorem SameRegistry_lock_get (st : State) : SameRegistry st (lock_get st) :=
  ⟨by simp, by simp, fun x => by simp [GetBlockSize]⟩

theorem SameRegistry_lock_release (st : State) : SameRegistry st (lock_release st) :=
  ⟨by simp, by simp, fun x => by simp [GetBlockSize]⟩

theorem SameRegistry_Allocate (st : State) (a size raw : Nat) :
    SameRegistry st (Allocate st a size raw).2 :=
  ⟨by simp, by simp, fun x => by simp [GetBlockSize]⟩

theorem SameRegistry_Deallocate (st : State) (a b : Nat) : SameRegistry st (Deallocate st a b) :=
  ⟨by simp, by simp, fun x => by simp [GetBlockSize]⟩

theorem SameRegistry_set_block_allocator (st : State) (b a : Nat) :
    SameRegistry st (set_block_allocator st b a).2 :=
  ⟨rfl, rfl, fun _ => rfl⟩

theorem SameRegistry_memcpy (st : State) (d s n : Nat) : SameRegistry st (memcpy st d s n) :=
  ⟨rfl, rfl, fun _ => rfl⟩

theorem SameRegistry_client_write (st : State) (p n : Nat) (f : Nat → Nat) :
    SameRegistry st (client_write st p n f) :=
  ⟨rfl, rfl, fun _ => rfl⟩

theorem SameRegistry_xfree (st : State) (p : Nat) : SameRegistry st (xfree st p) := by
  unfold xfree
  split
  · exact SameRegistry.refl st
  · exact (SameRegistry_lock_get st).trans
      ((SameRegistry_Deallocate _ _ _).trans (SameRegistry_lock_release _))

theorem SameRegistry_xalloc_init (st : State) (success : Nat) (st' : State)
    (h : xalloc_init st success = some st') : SameRegistry st st' := by
  unfold xalloc_init lock_init at h
  by_cases hs : success ≠ 0
  · rw [if_pos hs] at h
    simp only [Option.some.injEq] at h
    subst h
    exact ⟨rfl, rfl, fun _ => rfl⟩
  · rw [if_neg hs] at h
    simp at h

/-- A returning `xmalloc` changes the registry by one successful
`xallocator_get_allocator` and nothing else. -/
theorem xmalloc_registry (st : State) (s raw p : Nat) (st' : State)
    (h : xmalloc st s raw = some (p, st')) :
    ∃ a st1, xallocator_get_allocator (lock_get st) s = some (a, st1) ∧ SameRegistry st1 st' := by
  obtain ⟨a, st1, hg, _, hst⟩ := xmalloc_eq_some st s raw p st' h
  refine ⟨a, st1, hg, ?_⟩
  rw [hst]
  exact (SameRegistry_Allocate st1 a s raw).trans
    ((SameRegistry_lock_release _).trans (SameRegistry_set_block_allocator _ _ _))

/-- The number of bytes `xrealloc` copies out of the old block at `oldMem` when asked for
`size` bytes: `(oldSize < size) ? oldSize : size` of line 329. -/
theorem xrealloc_of_xmalloc (st : State) (old s raw newMem : Nat) (stm : State) (ho : old ≠ 0)
    (hs : s ≠ 0) (hm : xmalloc st s raw = some (newMem, stm)) :
    xrealloc st old s raw =
      if newMem ≠ 0 then
        some (newMem,
          xfree
            (memcpy stm newMem old
              (if (GetBlockSize stm (get_block_allocator stm old) + SIZE_MOD
                    - sizeof_AllocatorPtr) % SIZE_MOD < s
                then (GetBlockSize stm (get_block_allocator stm old) + SIZE_MOD
                    - sizeof_AllocatorPtr) % SIZE_MOD
                else s))
            old)
      else some (0, stm) := by
  unfold xrealloc
  rw [if_neg ho, if_neg hs, hm]

/-- A returning `xrealloc` changes the registry by at most one successful
`xallocator_get_allocator`. -/
theorem xrealloc_registry (st : State) (old s raw q : Nat) (st' : State)
    (h : xrealloc st old s raw = some (q, st')) :
    SameRegistry st st' ∨
      ∃ a st1, xallocator_get_allocator (lock_get st) s = some (a, st1) ∧
        SameRegistry st1 st' := by
  unfold xrealloc at h
  by_cases ho : old = 0
  · rw [if_pos ho] at h
    exact Or.inr (xmalloc_registry st s raw q st' h)
  · rw [if_neg ho] at h
    by_cases hs : s = 0
    · rw [if_pos hs] at h
      simp only [Option.some.injEq, Prod.mk.injEq] at h
      rw [← h.2]
      exact Or.inl (SameRegistry_xfree st old)
    · rw [if_neg hs] at h
      cases hm : xmalloc st s raw with
      | none => rw [hm] at h; simp at h
      | some r =>
        obtain ⟨newMem, stm⟩ := r
        rw [hm] at h
        dsimp only at h
        obtain ⟨a, st1, hg, hsame⟩ := xmalloc_registry st s raw newMem stm hm
        refine Or.inr ⟨a, st1, hg, ?_⟩
        by_cases hn : newMem ≠ 0
        · rw [if_pos hn] at h
          simp only [Option.some.injEq, Prod.mk.injEq] at h
          rw [← h.2]
          exact hsame.trans ((SameRegistry_memcpy _ _ _ _).trans (SameRegistry_xfree _ _))
        · rw [if_neg hn] at h
          simp only [Option.some.injEq, Prod.mk.injEq] at h
          rw [← h.2]
          exact hsame

/-- A property of the registry that survives every successful
`xallocator_get_allocator` survives every call other than `xalloc_destroy`. -/
theorem step_preserves (P : State → Prop)
    (hsame : ∀ st st', SameRegistry st st' → P st → P st')
    (hget : ∀ st s a st1, xallocator_get_allocator st s = some (a, st1) → P st → P st1)
    (st : State) (c : Call) (st' : State) (hc : c ≠ Call.xalloc_destroy)
    (h : step st c = some st') (hP : P st) : P st' := by
  cases c with
  | xalloc_init success => exact hsame _ _ (SameRegistry_xalloc_init st success st' h) hP
  | xalloc_destroy => exact absurd rfl hc
  | xallocator_get_allocator size =>
    simp only [step] at h
    cases hg : xallocator_get_allocator st size with
    | none => rw [hg] at h; simp at h
    | some r =>
      rw [hg] at h
      simp only [Option.map_some', Option.some.injEq] at h
      subst h
      exact hget st size r.1 r.2 hg hP
  | xmalloc size raw =>
    simp only [step] at h
    cases hm : xmalloc st size raw with
    | none => rw [hm] at h; simp at h
    | some r =>
      rw [hm] at h
      simp only [Option.map_some', Option.some.injEq] at h
      subst h
      obtain ⟨a, st1, hg, hs⟩ := xmalloc_registry st size raw r.1 r.2 hm
      exact hsame _ _ hs (hget _ size a st1 hg (hsame _ _ (SameRegistry_lock_get st) hP))
  | xfree ptr =>
    simp only [step, Option.some.injEq] at h
    subst h
    exact hsame _ _ (SameRegistry_xfree st ptr) hP
  | xrealloc oldMem size raw =>
    simp only [step] at h
    cases hm : xrealloc st oldMem size raw with
    | none => rw [hm] at h; simp at h
    | some r =>
      rw [hm] at h
      simp only [Option.map_some', Option.some.injEq] at h
      subst h
      rcases xrealloc_registry st oldMem size raw r.1 r.2 hm with hs | ⟨a, st1, hg, hs⟩
      · exact hsame _ _ hs hP
      · exact hsame _ _ hs (hget _ size a st1 hg (hsame _ _ (SameRegistry_lock_get st) hP))
  | store addr byte =>
    simp only [step, Option.some.injEq] at h
    subst h
    exact hsame _ _ (SameRegistry_client_write st addr 1 _) hP

/-- A property of the registry that survives every successful
`xallocator_get_allocator` survives every sequence of calls without `xalloc_destroy`. -/
theorem run_preserves (P : State → Prop)
    (hsame : ∀ st st', SameRegistry st st' → P st → P st')
    (hget : ∀ st s a st1, xallocator_get_allocator st s = some (a, st1) → P st → P st1) :
    ∀ (calls : List Call) (st st2 : State), Call.xalloc_destroy ∉ calls →
      run st calls = some st2 → P st → P st2 := by
  intro calls
  induction calls with
  | nil =>
    intro st st2 _ h hP
    simp only [run, Option.some.injEq] at h
    exact h ▸ hP
  | cons c rest ih =>
    intro st st2 hnd h hP
    simp only [run] at h
    cases hs : step st c with
    | none => rw [hs] at h; simp at h
    | some st' =>
      rw [hs] at h
      have hc : c ≠ Call.xalloc_destroy := fun e => hnd (e ▸ List.mem_cons_self _ _)
      exact ih st' st2 (fun hm => hnd (List.mem_cons_of_mem c hm)) h
        (step_preserves P hsame hget st c st' hc hs hP)

/-! ## C8: stable size-class selection -/

/-- Function `find_allocator` gives the same answer in states with the same registry. -/
theorem find_allocator_of_SameRegistry (st st' : State) (size : Nat) (h : SameRegistry st st') :
    find_allocator st' size = find_allocator st size := by
  unfold find_allocator
  rw [h.1]
  exact find_allocator_loop_congr st st' size _ fun a _ => h.2.2 a

/-- A fresh address stays fresh, and a Pool that `find_allocator` returns for a block size
stays the answer, across a successful `xallocator_get_allocator`. -/
theorem find_allocator_stable_get (bs a : Nat) (ha : a ≠ 0) (st : State) (s' a' : Nat)
    (st1 : State) (h : xallocator_get_allocator st s' = some (a', st1))
    (hP : FreshNext st ∧ find_allocator st bs = a) :
    FreshNext st1 ∧ find_allocator st1 bs = a := by
  obtain ⟨⟨h0, hreg⟩, hf⟩ := hP
  rcases xallocator_get_allocator_cases st s' a' st1 h with ⟨_, _, rfl⟩ | ⟨_, _, l, hl, rfl⟩
  · exact ⟨⟨h0, hreg⟩, hf⟩
  · refine ⟨⟨by simp [new_Allocator], ?_⟩, ?_⟩
    · intro x hx
      rcases insert_allocator_loop_mem _ _ _ hl x hx with h1 | h1
      · have := hreg x h1
        simp only [new_Allocator]; omega
      · simp only [new_Allocator]; omega
    · have hcongr : ∀ y ∈ st.allocators,
          GetBlockSize { (new_Allocator st (blockSizeFor s')).2 with allocators := l } y
            = GetBlockSize st y := by
        intro y hy
        have : y ≠ st.next := ne_of_lt (hreg y hy)
        simp [GetBlockSize, new_Allocator, this]
      have hold : find_allocator_loop
          { (new_Allocator st (blockSizeFor s')).2 with allocators := l } bs st.allocators = a := by
        rw [find_allocator_loop_congr st _ bs st.allocators hcongr]
        exact hf
      show find_allocator_loop _ bs l = a
      rw [find_allocator_loop_insert_of_hit _ bs st.next st.allocators l hl (by rw [hold]; exact ha)]
      exact hold

/-- C8: a successful `xallocator_get_allocator(s)` returns a non-null Pool whose configured
block size is the block size computed for `s` and which is registered afterwards; after any
further successful calls other than `xalloc_destroy`, a call with `s` or with any `s'` that
rounds to the same block size returns that same Pool and leaves the state unchanged. -/
theorem xallocator_get_allocator_stable (st : State) (s a : Nat) (st1 : State)
    (hok : FreshNext st) (h : xallocator_get_allocator st s = some (a, st1)) :
    GetBlockSize st1 a = blockSizeFor s ∧ a ≠ 0 ∧ a ∈ st1.allocators ∧
      ∀ (calls : List Call) (st2 : State), Call.xalloc_destroy ∉ calls →
        run st1 calls = some st2 → ∀ s', blockSizeFor s' = blockSizeFor s →
          xallocator_get_allocator st2 s' = some (a, st2) := by
  obtain ⟨hne, _, hmem, hbs, _, _, _⟩ := xallocator_get_allocator_spec st s a st1 hok h
  refine ⟨hbs, hne, hmem, ?_⟩
  have hP1 : FreshNext st1 ∧ find_allocator st1 (blockSizeFor s) = a := by
    rcases xallocator_get_allocator_cases st s a st1 h with ⟨hf, _, rfl⟩ | ⟨hf, ha, l, hl, rfl⟩
    · exact ⟨hok, hf⟩
    · obtain ⟨h0, hreg⟩ := hok
      refine ⟨⟨by simp [new_Allocator], ?_⟩, ?_⟩
      · intro x hx
        rcases insert_allocator_loop_mem _ _ _ hl x hx with h1 | h1
        · have := hreg x h1
          simp only [new_Allocator]; omega
        · simp only [new_Allocator]; omega
      · have hcongr : ∀ y ∈ st.allocators,
            GetBlockSize { (new_Allocator st (blockSizeFor s)).2 with allocators := l } y
              = GetBlockSize st y := by
          intro y hy
          have : y ≠ st.next := ne_of_lt (hreg y hy)
          simp [GetBlockSize, new_Allocator, this]
        have hmiss : find_allocator_loop
            { (new_Allocator st (blockSizeFor s)).2 with allocators := l } (blockSizeFor s)
              st.allocators = 0 := by
          rw [find_allocator_loop_congr st _ _ st.allocators hcongr]
          exact hf
        show find_allocator_loop _ (blockSizeFor s) l = a
        rw [ha]
        exact find_allocator_loop_insert_of_miss _ _ st.next (by omega)
          (by simp [GetBlockSize, new_Allocator]) st.allocators l hl hmiss
  intro calls st2 hnd hrun s' hs'
  have hP2 : FreshNext st2 ∧ find_allocator st2 (blockSizeFor s) = a := by
    refine run_preserves (fun t => FreshNext t ∧ find_allocator t (blockSizeFor s) = a) ?_ ?_
      calls st1 st2 hnd hrun hP1
    · intro t t' hsame hP
      refine ⟨⟨by rw [hsame.2.1]; exact hP.1.1, ?_⟩, ?_⟩
      · intro x hx
        rw [hsame.1] at hx
        rw [hsame.2.1]
        exact hP.1.2 x hx
      · rw [find_allocator_of_SameRegistry t t' _ hsame]; exact hP.2
    · intro t s'' a'' t1 hg hP
      exact find_allocator_stable_get (blockSizeFor s) a hne t s'' a'' t1 hg hP
  unfold xallocator_get_allocator
  simp only [hs', hP2.2, hne, if_false]

/-- C8, applied from the start state: the Pool `1` created for `s = 10` (block size 32) is
returned again for `s' = 17` after an `xmalloc(100)` and a request for 3000 bytes. -/
theorem xallocator_get_allocator_stable_witness :
    ∃ st1, xallocator_get_allocator (initialState fun _ => 0) 10 = some (1, st1) ∧
      GetBlockSize st1 1 = blockSizeFor 10 ∧
      ∀ st2, run st1 [Call.xmalloc 100 4096, Call.xallocator_get_allocator 3000] = some st2 →
        xallocator_get_allocator st2 17 = some (1, st2) := by
  have hx : ∃ st1, xallocator_get_allocator (initialState fun _ => 0) 10 = some (1, st1) :=
    ⟨_, rfl⟩
  obtain ⟨st1, hst⟩ := hx
  obtain ⟨h1, _, _, h2⟩ :=
    xallocator_get_allocator_stable (initialState fun _ => 0) 10 1 st1
      (HeapOK_initialState _).fresh hst
  exact ⟨st1, hst, h1, fun st2 hrun => h2 _ st2 (by decide) hrun 17 (by decide)⟩

/-! ## Registry invariant: lemmas on the loops -/

theorem Contiguous_cons_zero (rest : List Nat) :
    Contiguous (0 :: rest) ↔ ∀ x ∈ rest, x = 0 := by
  simp [Contiguous, List.dropWhile_cons]

theorem Contiguous_cons_ne {a : Nat} (ha : a ≠ 0) (rest : List Nat) :
    Contiguous (a :: rest) ↔ Contiguous rest := by
  simp [Contiguous, List.dropWhile_cons, ha]

theorem populated_of_all_zero : ∀ l : List Nat, (∀ x ∈ l, x = 0) → populated l = [] := by
  intro l h
  cases l with
  | nil => rfl
  | cons a rest =>
    have : a = 0 := h a (List.mem_cons_self _ _)
    subst this
    exact populated_cons_zero rest

theorem Contiguous_of_all_zero (l : List Nat) (h : ∀ x ∈ l, x = 0) : Contiguous l := by
  intro x hx
  exact h x (List.dropWhile_subset _ hx)

/-- Under contiguity the non-empty slots are exactly the populated prefix. -/
theorem filter_eq_populated : ∀ l : List Nat, Contiguous l →
    l.filter (fun a => a != 0) = populated l := by
  intro l
  induction l with
  | nil => intro _; rfl
  | cons a rest ih =>
    intro hc
    by_cases ha : a = 0
    · subst ha
      rw [populated_cons_zero]
      have hz := (Contiguous_cons_zero rest).mp hc
      rw [List.filter_eq_nil_iff]
      intro x hx
      rcases List.mem_cons.mp hx with h1 | h1
      · simp [h1]
      · simp [hz x h1]
    · rw [populated_cons_ne ha, List.filter_cons_of_pos (by simpa using ha),
        ih ((Contiguous_cons_ne ha rest).mp hc)]

/-- Under contiguity, once a slot is empty every later slot is empty. -/
theorem Contiguous_getD : ∀ l : List Nat, Contiguous l →
    ∀ i j, i ≤ j → l.getD i 0 = 0 → l.getD j 0 = 0 := by
  intro l
  induction l with
  | nil => intro _ i j _ _; simp
  | cons a rest ih =>
    intro hc i j hij hi
    by_cases ha : a = 0
    · subst ha
      have hz := (Contiguous_cons_zero rest).mp hc
      cases j with
      | zero => simp
      | succ j' =>
        simp only [List.getD_cons_succ]
        by_cases hj : j' < rest.length
        · rw [List.getD_eq_getElem _ _ hj]
          exact hz _ (List.getElem_mem hj)
        · exact List.getD_eq_default _ _ (by omega)
    · have hc' := (Contiguous_cons_ne ha rest).mp hc
      cases i with
      | zero => simp at hi; exact absurd hi ha
      | succ i' =>
        cases j with
        | zero => omega
        | succ j' =>
          simp only [List.getD_cons_succ] at hi ⊢
          exact ih hc' i' j' (by omega) hi

/-- Function `insert_allocator` asserts exactly when every slot is populated. -/
theorem insert_allocator_loop_eq_none (x : Nat) :
    ∀ l, insert_allocator_loop x l = none ↔ ∀ a ∈ l, a ≠ 0 := by
  intro l
  induction l with
  | nil => simp [insert_allocator_loop]
  | cons a rest ih =>
    by_cases ha : a = 0
    · subst ha; simp [insert_allocator_loop_cons_zero]
    · rw [insert_allocator_loop_cons_ne x ha]
      simp [ih, ha]

/-- On a contiguous registry `insert_allocator` appends the Pool to the populated prefix. -/
theorem insert_allocator_loop_contiguous (x : Nat) (hx : x ≠ 0) :
    ∀ l l', Contiguous l → insert_allocator_loop x l = some l' →
      Contiguous l' ∧ populated l' = populated l ++ [x] ∧ l'.length = l.length := by
  intro l
  induction l with
  | nil => intro l' _ h; simp [insert_allocator_loop] at h
  | cons a rest ih =>
    intro l' hc h
    by_cases ha : a = 0
    · subst ha
      rw [insert_allocator_loop_cons_zero] at h
      simp only [Option.some.injEq] at h
      subst h
      have hz := (Contiguous_cons_zero rest).mp hc
      refine ⟨(Contiguous_cons_ne hx rest).mpr (Contiguous_of_all_zero rest hz), ?_, rfl⟩
      rw [populated_cons_ne hx, populated_of_all_zero rest hz, populated_cons_zero]
      rfl
    · rw [insert_allocator_loop_cons_ne x ha] at h
      cases hr : insert_allocator_loop x rest with
      | none => rw [hr] at h; simp at h
      | some r =>
        rw [hr] at h
        simp only [Option.map_some', Option.some.injEq] at h
        subst h
        obtain ⟨h1, h2, h3⟩ := ih r ((Contiguous_cons_ne ha rest).mp hc) hr
        refine ⟨(Contiguous_cons_ne ha r).mpr h1, ?_, by simp [h3]⟩
        rw [populated_cons_ne ha, populated_cons_ne ha, h2]
        rfl

/-- The loop of `xalloc_destroy` touches the collaborator trace only. -/
theorem xalloc_destroy_loop_frame : ∀ (l : List Nat) (st : State),
    (xalloc_destroy_loop st l).1.allocators = st.allocators ∧
      (xalloc_destroy_loop st l).1.heap = st.heap ∧
      (xalloc_destroy_loop st l).1.next = st.next ∧
      (xalloc_destroy_loop st l).1.mem = st.mem ∧
      (xalloc_destroy_loop st l).1.xallocInitialized = st.xallocInitialized := by
  intro l
  induction l with
  | nil => intro st; simp [xalloc_destroy_loop]
  | cons a rest ih =>
    intro st
    unfold xalloc_destroy_loop
    by_cases ha : a = 0
    · simp [ha]
    · simp only [ha, if_false]
      obtain ⟨h1, h2, h3, h4, h5⟩ := ih (delete_Allocator st a)
      exact ⟨h1, h2, h3, h4, h5⟩

/-- On a contiguous registry the loop of `xalloc_destroy` leaves every slot empty. -/
theorem xalloc_destroy_loop_all_zero : ∀ (l : List Nat) (st : State), Contiguous l →
    (∀ y ∈ (xalloc_destroy_loop st l).2, y = 0) ∧
      (xalloc_destroy_loop st l).2.length = l.length := by
  intro l
  induction l with
  | nil => intro st _; simp [xalloc_destroy_loop]
  | cons a rest ih =>
    intro st hc
    unfold xalloc_destroy_loop
    by_cases ha : a = 0
    · subst ha
      have hz := (Contiguous_cons_zero rest).mp hc
      rw [if_pos rfl]
      refine ⟨?_, rfl⟩
      intro y hy
      rcases List.mem_cons.mp hy with h1 | h1
      · exact h1
      · exact hz y h1
    · simp only [ha, if_false]
      obtain ⟨h1, h2⟩ := ih (delete_Allocator st a) ((Contiguous_cons_ne ha rest).mp hc)
      refine ⟨?_, by simp [h2]⟩
      intro y hy
      rcases List.mem_cons.mp hy with h3 | h3
      · exact h3
      · exact h1 y h3

/-! ## C9: the registry invariant holds in every reachable state -/

theorem RegistryInv_of_SameRegistry (st st' : State) (h : SameRegistry st st')
    (hI : RegistryInv st) : RegistryInv st' := by
  obtain ⟨h0, hreg, hlen, hc, hnd⟩ := hI
  obtain ⟨ha, hn, hb⟩ := h
  have hfun : GetBlockSize st' = GetBlockSize st := funext hb
  refine ⟨by rw [hn]; exact h0, ?_, by rw [ha]; exact hlen, by rw [ha]; exact hc, ?_⟩
  · intro a hmem; rw [ha] at hmem; rw [hn]; exact hreg a hmem
  · rw [ha, hfun]; exact hnd

theorem RegistryInv_get (st : State) (s a : Nat) (st1 : State)
    (h : xallocator_get_allocator st s = some (a, st1)) (hI : RegistryInv st) :
    RegistryInv st1 := by
  obtain ⟨h0, hreg, hlen, hc, hnd⟩ := hI
  rcases xallocator_get_allocator_cases st s a st1 h with ⟨_, _, rfl⟩ | ⟨hf, _, l, hl, rfl⟩
  · exact ⟨h0, hreg, hlen, hc, hnd⟩
  · obtain ⟨hc', hpop, hlen'⟩ :=
      insert_allocator_loop_contiguous st.next (by omega) st.allocators l hc hl
    refine ⟨by simp [new_Allocator], ?_, by rw [← hlen]; exact hlen', hc', ?_⟩
    · intro x hx
      rcases insert_allocator_loop_mem _ _ _ hl x hx with h1 | h1
      · have := hreg x h1
        simp only [new_Allocator]; omega
      · simp only [new_Allocator]; omega
    · show ((populated l).map (GetBlockSize _)).Nodup
      rw [hpop, List.map_append]
      have hcongr : (populated st.allocators).map
            (GetBlockSize { (new_Allocator st (blockSizeFor s)).2 with allocators := l })
          = (populated st.allocators).map (GetBlockSize st) := by
        apply List.map_congr_left
        intro y hy
        have : y ≠ st.next := ne_of_lt (hreg y (mem_populated hy).1)
        simp [GetBlockSize, new_Allocator, this]
      rw [hcongr]
      have hnew : GetBlockSize { (new_Allocator st (blockSizeFor s)).2 with allocators := l }
          st.next = blockSizeFor s := by
        simp [GetBlockSize, new_Allocator]
      simp only [List.map_cons, List.map_nil, hnew]
      have hmiss := (find_allocator_loop_eq_zero st (blockSizeFor s) st.allocators).mp hf
      refine List.Nodup.append hnd (List.nodup_singleton _) ?_
      rw [List.disjoint_singleton]
      intro hm
      obtain ⟨y, hy, hys⟩ := List.mem_map.mp hm
      exact hmiss y hy hys

theorem RegistryInv_xalloc_destroy (st : State) (hI : RegistryInv st) :
    RegistryInv (xalloc_destroy st) := by
  obtain ⟨h0, _, hlen, hc, _⟩ := hI
  obtain ⟨_, _, hnext, _, _⟩ := xalloc_destroy_loop_frame (lock_get st).allocators (lock_get st)
  have hc' : Contiguous (lock_get st).allocators := by simpa using hc
  obtain ⟨hz, hl⟩ := xalloc_destroy_loop_all_zero (lock_get st).allocators (lock_get st) hc'
  have hal : (xalloc_destroy st).allocators
      = (xalloc_destroy_loop (lock_get st) (lock_get st).allocators).2 := by
    simp [xalloc_destroy, lock_destroy]
  have hnx : (xalloc_destroy st).next = st.next := by
    have : (xalloc_destroy st).next
        = (xalloc_destroy_loop (lock_get st) (lock_get st).allocators).1.next := by
      simp [xalloc_destroy, lock_destroy]
    rw [this, hnext, lock_get_next]
  refine ⟨by rw [hnx]; exact h0, ?_, ?_, ?_, ?_⟩
  · intro a ha
    rw [hal] at ha
    rw [hz a ha, hnx]; exact h0
  · rw [hal, hl]; simpa using hlen
  · rw [hal]; exact Contiguous_of_all_zero _ hz
  · rw [hal, populated_of_all_zero _ hz]; simp

theorem RegistryInv_of_EmptyRegistry (st : State) (h : EmptyRegistry st) : RegistryInv st := by
  obtain ⟨ha, h0⟩ := h
  have hz : ∀ x ∈ st.allocators, x = 0 := by
    intro x hx; rw [ha] at hx; exact (List.mem_replicate.mp hx).2
  refine ⟨h0, ?_, by rw [ha]; simp, Contiguous_of_all_zero _ hz, ?_⟩
  · intro a hmem; rw [hz a hmem]; exact h0
  · rw [populated_of_all_zero _ hz]; simp

theorem RegistryInv_step (st : State) (c : Call) (st' : State) (h : step st c = some st')
    (hI : RegistryInv st) : RegistryInv st' := by
  by_cases hc : c = Call.xalloc_destroy
  · subst hc
    simp only [step, Option.some.injEq] at h
    subst h
    exact RegistryInv_xalloc_destroy st hI
  · exact step_preserves RegistryInv RegistryInv_of_SameRegistry
      (fun t s a t1 hg hP => RegistryInv_get t s a t1 hg hP) st c st' hc h hI

theorem RegistryInv_run : ∀ (calls : List Call) (st st' : State),
    run st calls = some st' → RegistryInv st → RegistryInv st' := by
  intro calls
  induction calls with
  | nil =>
    intro st st' h hI
    simp only [run, Option.some.injEq] at h
    exact h ▸ hI
  | cons c rest ih =>
    intro st st' h hI
    simp only [run] at h
    cases hs : step st c with
    | none => rw [hs] at h; simp at h
    | some st1 =>
      rw [hs] at h
      exact ih st1 st' h (RegistryInv_step st c st1 hs hI)

/-- C9: in every state reached from an empty registry by any sequence of `xalloc_init`,
`xalloc_destroy`, `xallocator_get_allocator`, `xmalloc`, `xfree`, `xrealloc` calls and
caller stores, the registry has `MAX_ALLOCATORS` slots, once a slot is empty every later
slot is empty, and the configured block sizes of the populated slots are pairwise
distinct. -/
theorem registry_invariants (st0 : State) (calls : List Call) (st : State)
    (h0 : EmptyRegistry st0) (hrun : run st0 calls = some st) :
    st.allocators.length = MAX_ALLOCATORS ∧
      (∀ i j, i ≤ j → st.allocators.getD i 0 = 0 → st.allocators.getD j 0 = 0) ∧
      (st.allocators.filter fun a => a != 0).Pairwise
        fun a b => GetBlockSize st a ≠ GetBlockSize st b := by
  obtain ⟨_, _, hlen, hc, hnd⟩ :=
    RegistryInv_run calls st0 st hrun (RegistryInv_of_EmptyRegistry st0 h0)
  refine ⟨hlen, Contiguous_getD _ hc, ?_⟩
  rw [filter_eq_populated _ hc]
  exact List.pairwise_map.mp hnd

/-- C9, applied to a run from the start state that allocates from two size classes, frees,
tears the registry down and allocates again. -/
theorem registry_invariants_witness :
    ∃ st, run (initialState fun _ => 0)
        [Call.xmalloc 10 4096, Call.xmalloc 300 8192, Call.xfree 4104, Call.xalloc_destroy,
          Call.xrealloc 0 5 4096] = some st ∧
      st.allocators.length = MAX_ALLOCATORS ∧
      (∀ i j, i ≤ j → st.allocators.getD i 0 = 0 → st.allocators.getD j 0 = 0) ∧
      (st.allocators.filter fun a => a != 0).Pairwise
        fun a b => GetBlockSize st a ≠ GetBlockSize st b := by
  have hx : ∃ st, run (initialState fun _ => 0)
      [Call.xmalloc 10 4096, Call.xmalloc 300 8192, Call.xfree 4104, Call.xalloc_destroy,
        Call.xrealloc 0 5 4096] = some st := ⟨_, rfl⟩
  obtain ⟨st, hst⟩ := hx
  exact ⟨st, hst, registry_invariants (initialState fun _ => 0) _ st ⟨rfl, by decide⟩ hst⟩

/-! ## C7: registry capacity -/

theorem populated_eq_filter_sublist (l : List Nat) (hc : Contiguous l) :
    (populated l).Sublist l := by
  rw [← filter_eq_populated l hc]
  exact List.filter_sublist l

/-- On a contiguous registry every slot is populated exactly when the populated prefix is
the whole array. -/
theorem all_populated_iff (l : List Nat) (hc : Contiguous l) :
    (∀ a ∈ l, a ≠ 0) ↔ (populated l).length = l.length := by
  constructor
  · intro h
    have : l.filter (fun a => a != 0) = l := by
      rw [List.filter_eq_self]; intro a ha; simpa using h a ha
    rw [← filter_eq_populated l hc, this]
  · intro h a ha
    have heq : populated l = l := (populated_eq_filter_sublist l hc).eq_of_length h
    rw [← heq] at ha
    exact (mem_populated ha).2

theorem mem_registeredSizes (st : State) (size : Nat) :
    size ∈ registeredSizes st ↔ find_allocator st size ≠ 0 := by
  unfold registeredSizes find_allocator
  rw [List.mem_toFinset, Ne, find_allocator_loop_eq_zero]
  constructor
  · rintro h hall
    obtain ⟨y, hy, hys⟩ := List.mem_map.mp h
    exact hall y hy hys
  · intro h
    by_contra hn
    apply h
    intro a ha hs
    exact hn (List.mem_map.mpr ⟨a, ha, hs⟩)

theorem card_registeredSizes (st : State) (hI : RegistryInv st) :
    (registeredSizes st).card = (populated st.allocators).length := by
  unfold registeredSizes
  rw [List.toFinset_card_of_nodup hI.2.2.2.2, List.length_map]

/-- Under the registry invariant `xallocator_get_allocator` asserts exactly when the block
size is not registered and all `MAX_ALLOCATORS` slots are populated. -/
theorem xallocator_get_allocator_eq_none (st : State) (s : Nat) (hI : RegistryInv st) :
    xallocator_get_allocator st s = none ↔
      blockSizeFor s ∉ registeredSizes st ∧
        (populated st.allocators).length = MAX_ALLOCATORS := by
  obtain ⟨_, _, hlen, hc, _⟩ := hI
  rw [mem_registeredSizes, ← hlen, ← all_populated_iff _ hc]
  unfold xallocator_get_allocator
  by_cases hf : find_allocator st (blockSizeFor s) = 0
  · simp only [hf, if_true, ne_eq, not_true_eq_false, not_false_eq_true, true_and,
      Option.map_eq_none', insert_allocator, new_Allocator]
    exact insert_allocator_loop_eq_none st.next st.allocators
  · simp [hf]

/-- A successful `xallocator_get_allocator(s)` adds the block size computed for `s` to the
registered sizes, and nothing else. -/
theorem registeredSizes_get (st : State) (s a : Nat) (st1 : State) (hI : RegistryInv st)
    (h : xallocator_get_allocator st s = some (a, st1)) :
    registeredSizes st1 = insert (blockSizeFor s) (registeredSizes st) := by
  obtain ⟨h0, hreg, _, hc, _⟩ := hI
  rcases xallocator_get_allocator_cases st s a st1 h with ⟨hf, ha, rfl⟩ | ⟨_, _, l, hl, rfl⟩
  · rw [Finset.insert_eq_of_mem]
    rw [mem_registeredSizes, hf]; exact ha
  · obtain ⟨_, hpop, _⟩ :=
      insert_allocator_loop_contiguous st.next (by omega) st.allocators l hc hl
    have hcongr : (populated st.allocators).map
          (GetBlockSize { (new_Allocator st (blockSizeFor s)).2 with allocators := l })
        = (populated st.allocators).map (GetBlockSize st) := by
      apply List.map_congr_left
      intro y hy
      have : y ≠ st.next := ne_of_lt (hreg y (mem_populated hy).1)
      simp [GetBlockSize, new_Allocator, this]
    have hnew : GetBlockSize { (new_Allocator st (blockSizeFor s)).2 with allocators := l }
        st.next = blockSizeFor s := by
      simp [GetBlockSize, new_Allocator]
    show ((populated l).map (GetBlockSize _)).toFinset = _
    rw [hpop, List.map_append, hcongr]
    simp only [List.map_cons, List.map_nil, hnew, List.toFinset_append, List.toFinset_cons,
      List.toFinset_nil]
    unfold registeredSizes
    ext x
    simp only [Finset.mem_union, Finset.mem_insert, List.mem_toFinset, Finset.not_mem_empty,
      or_false]
    tauto

/-- A run of `xallocator_get_allocator` calls from a state with the registry invariant
succeeds exactly when the sizes registered before plus the block sizes requested number at
most `MAX_ALLOCATORS`; it ends with exactly those sizes registered. -/
theorem run_get_allocator (reqs : List Nat) : ∀ st : State, RegistryInv st →
    ((run st (reqs.map Call.xallocator_get_allocator)).isSome ↔
        (registeredSizes st ∪ (reqs.map blockSizeFor).toFinset).card ≤ MAX_ALLOCATORS) ∧
      ∀ st', run st (reqs.map Call.xallocator_get_allocator) = some st' →
        RegistryInv st' ∧
          registeredSizes st' = registeredSizes st ∪ (reqs.map blockSizeFor).toFinset := by
  induction reqs with
  | nil =>
    intro st hI
    simp only [List.map_nil, run, Option.isSome_some, List.toFinset_nil, Finset.union_empty,
      true_iff, Option.some.injEq]
    refine ⟨?_, fun st' h => h ▸ ⟨hI, rfl⟩⟩
    rw [card_registeredSizes st hI, ← hI.2.2.1]
    exact (populated_eq_filter_sublist _ hI.2.2.2.1).length_le
  | cons s rest ih =>
    intro st hI
    simp only [List.map_cons, run, step, List.toFinset_cons, Finset.union_insert]
    cases hg : xallocator_get_allocator st s with
    | none =>
      obtain ⟨hnot, hfull⟩ := (xallocator_get_allocator_eq_none st s hI).mp hg
      simp only [Option.map_none', Option.isSome_none, Bool.false_eq_true, false_iff, not_le]
      refine ⟨?_, fun st' h => by simp at h⟩
      have h1 : (insert (blockSizeFor s) (registeredSizes st)).card = MAX_ALLOCATORS + 1 := by
        rw [Finset.card_insert_of_not_mem hnot, card_registeredSizes st hI, hfull]
      have h2 : insert (blockSizeFor s) (registeredSizes st)
          ⊆ insert (blockSizeFor s) (registeredSizes st ∪ (rest.map blockSizeFor).toFinset) :=
        Finset.insert_subset_insert _ Finset.subset_union_left
      have h3 := Finset.card_le_card h2
      omega
    | some r =>
      obtain ⟨a, st1⟩ := r
      have hI1 := RegistryInv_get st s a st1 hg hI
      have hsz := registeredSizes_get st s a st1 hI hg
      obtain ⟨ih1, ih2⟩ := ih st1 hI1
      simp only [Option.map_some']
      rw [hsz, Finset.insert_union] at ih1
      refine ⟨ih1, ?_⟩
      intro st' h
      obtain ⟨h1, h2⟩ := ih2 st' h
      refine ⟨h1, ?_⟩
      rw [h2, hsz, Finset.insert_union]

/-- C7: starting from an empty registry, a sequence of `xallocator_get_allocator` requests
runs without the fatal assertion exactly when it asks for at most `MAX_ALLOCATORS = 15`
distinct block sizes. In every state `st` such a run reaches, a further request for `s`
asserts if and only if no populated slot has the block size computed for `s` and all 15
slots are populated; it succeeds whenever fewer than 15 distinct block sizes have been
requested so far, and whenever the block size is already registered. -/
theorem registry_capacity (st0 : State) (reqs : List Nat) (h0 : EmptyRegistry st0) :
    ((run st0 (reqs.map Call.xallocator_get_allocator)).isSome ↔
        (reqs.map blockSizeFor).toFinset.card ≤ MAX_ALLOCATORS) ∧
      ∀ st, run st0 (reqs.map Call.xallocator_get_allocator) = some st → ∀ s,
        (xallocator_get_allocator st s = none ↔
          (∀ a ∈ st.allocators, a ≠ 0 → GetBlockSize st a ≠ blockSizeFor s) ∧
            (st.allocators.filter fun a => a != 0).length = MAX_ALLOCATORS) ∧
        ((reqs.map blockSizeFor).toFinset.card < MAX_ALLOCATORS →
          (xallocator_get_allocator st s).isSome) ∧
        ((∃ a ∈ st.allocators, a ≠ 0 ∧ GetBlockSize st a = blockSizeFor s) →
          (xallocator_get_allocator st s).isSome) := by
  have hI0 := RegistryInv_of_EmptyRegistry st0 h0
  have hsz0 : registeredSizes st0 = ∅ := by
    unfold registeredSizes
    rw [populated_of_all_zero _ (fun x hx => by
      rw [h0.1] at hx; exact (List.mem_replicate.mp hx).2)]
    rfl
  obtain ⟨hrun, hst⟩ := run_get_allocator reqs st0 hI0
  rw [hsz0, Finset.empty_union] at hrun
  refine ⟨hrun, ?_⟩
  intro st hr s
  obtain ⟨hI, hsz⟩ := hst st hr
  rw [hsz0, Finset.empty_union] at hsz
  have hc := hI.2.2.2.1
  have hnone := xallocator_get_allocator_eq_none st s hI
  have hreg : blockSizeFor s ∉ registeredSizes st ↔
      ∀ a ∈ st.allocators, a ≠ 0 → GetBlockSize st a ≠ blockSizeFor s := by
    unfold registeredSizes
    rw [List.mem_toFinset, ← filter_eq_populated _ hc]
    constructor
    · intro h a ha hne hs
      exact h (List.mem_map.mpr ⟨a, List.mem_filter.mpr ⟨ha, by simpa using hne⟩, hs⟩)
    · intro h hm
      obtain ⟨y, hy, hys⟩ := List.mem_map.mp hm
      obtain ⟨hy1, hy2⟩ := List.mem_filter.mp hy
      exact h y hy1 (by simpa using hy2) hys
  refine ⟨?_, ?_, ?_⟩
  · rw [hnone, hreg, filter_eq_populated _ hc]
  · intro hcard
    rw [Option.isSome_iff_ne_none, Ne, hnone]
    rintro ⟨_, hfull⟩
    rw [← hsz, card_registeredSizes st hI, hfull] at hcard
    exact lt_irrefl _ hcard
  · rintro ⟨a, ha, hne, hs⟩
    rw [Option.isSome_iff_ne_none, Ne, hnone, hreg]
    rintro ⟨hall, _⟩
    exact hall a ha hne hs

/-- C7, applied from the start state: fifteen requests with fifteen distinct block sizes
run through, and a sixteenth distinct block size reaches the assertion. -/
theorem registry_capacity_witness :
    EmptyRegistry (initialState fun _ => 0) ∧
      (run (initialState fun _ => 0)
        ([0, 1, 9, 25, 57, 121, 249, 257, 505, 513, 1017, 2041, 4089, 8185, 16377].map
          Call.xallocator_get_allocator)).isSome ∧
      ¬ (run (initialState fun _ => 0)
        ([0, 1, 9, 25, 57, 121, 249, 257, 505, 513, 1017, 2041, 4089, 8185, 16377, 40000].map
          Call.xallocator_get_allocator)).isSome :=
  ⟨⟨rfl, by decide⟩,
    (registry_capacity (initialState fun _ => 0) _ ⟨rfl, by decide⟩).1.mpr (by decide),
    fun h => absurd ((registry_capacity (initialState fun _ => 0) _ ⟨rfl, by decide⟩).1.mp h)
      (by decide)⟩

/-! ## Data preservation across `xrealloc` where the old block covers the request -/

theorem loadPtr_congr (m1 m2 : Nat → Nat) (addr : Nat)
    (h : ∀ i, i < sizeof_AllocatorPtr → m1 (addr + i) = m2 (addr + i)) :
    loadPtr m1 addr = loadPtr m2 addr := by
  unfold loadPtr
  apply congrArg
  apply List.map_congr_left
  intro i hi
  rw [h i (List.mem_range.mp hi)]

theorem xallocator_get_allocator_mem (st : State) (s a : Nat) (st1 : State)
    (h : xallocator_get_allocator st s = some (a, st1)) : st1.mem = st.mem := by
  rcases xallocator_get_allocator_cases st s a st1 h with ⟨_, _, rfl⟩ | ⟨_, _, l, _, rfl⟩
  · rfl
  · rfl

/-- The memory after a returning `xmalloc` is the memory before with the header stored at
the raw block. -/
theorem xmalloc_mem (st : State) (s raw p : Nat) (st' : State)
    (h : xmalloc st s raw = some (p, st')) : ∃ a, st'.mem = storePtr st.mem raw a := by
  obtain ⟨a, st1, hg, _, hst⟩ := xmalloc_eq_some st s raw p st' h
  refine ⟨a, ?_⟩
  rw [hst]
  simp [set_block_allocator, xallocator_get_allocator_mem _ s a st1 hg]

theorem xfree_mem (st : State) (p : Nat) : (xfree st p).mem = st.mem := by
  unfold xfree
  split
  · rfl
  · simp

/-- Resize preserves data when the old block is large enough: let `p` be a non-null client
pointer whose header names a registered Pool `a` of block size `B` with
`n + sizeof(Allocator*) ≤ B < 2 ^ 64`, and let the raw block the Pool hands out for the new
size `m > 0` not overlap the old header and the `n` bytes at `p`. Then `xrealloc(p, m)`, when
it returns, returns `q = raw + sizeof(Allocator*)` and the first `min n m` bytes at `q` are
the bytes that were at `p`. -/
theorem xrealloc_preserves_data (st : State) (p n m raw q : Nat) (st' : State)
    (hfresh : FreshNext st) (hp : sizeof_AllocatorPtr ≤ p) (hm : m ≠ 0)
    (hreg : get_block_allocator st p ∈ st.allocators)
    (hB : n + sizeof_AllocatorPtr ≤ GetBlockSize st (get_block_allocator st p))
    (hB64 : GetBlockSize st (get_block_allocator st p) < SIZE_MOD)
    (hdisj : raw + sizeof_AllocatorPtr ≤ p - sizeof_AllocatorPtr ∨ p + n ≤ raw)
    (h : xrealloc st p m raw = some (q, st')) :
    q = raw + sizeof_AllocatorPtr ∧ ∀ i, i < min n m → st'.mem (q + i) = st.mem (p + i) := by
  have hp0 : p ≠ 0 := by simp only [sizeof_AllocatorPtr] at hp; omega
  cases hx : xmalloc st m raw with
  | none =>
    unfold xrealloc at h
    rw [if_neg hp0, if_neg hm, hx] at h
    simp at h
  | some r =>
    obtain ⟨newMem, stm⟩ := r
    rw [xrealloc_of_xmalloc st p m raw newMem stm hp0 hm hx] at h
    obtain ⟨hnew, hnew0⟩ := xmalloc_of_pool_success st m raw newMem stm hx
    rw [if_pos hnew0] at h
    simp only [Option.some.injEq, Prod.mk.injEq] at h
    obtain ⟨hq, hst'⟩ := h
    obtain ⟨a', hmem⟩ := xmalloc_mem st m raw newMem stm hx
    -- the old header survives the store of the new header
    have hown : get_block_allocator stm p = get_block_allocator st p := by
      unfold get_block_allocator
      rw [hmem]
      apply loadPtr_congr
      intro i hi
      unfold storePtr
      rw [if_neg]
      simp only [sizeof_AllocatorPtr] at hdisj hp hi ⊢
      omega
    -- the old Pool keeps its block size
    have hbs : GetBlockSize stm (get_block_allocator st p)
        = GetBlockSize st (get_block_allocator st p) := by
      obtain ⟨a, st1, hg, hsame⟩ := xmalloc_registry st m raw newMem stm hx
      have hfresh' : FreshNext (lock_get st) := ⟨by simpa using hfresh.1, by simpa using hfresh.2⟩
      obtain ⟨_, _, _, _, hold, _, hoth⟩ :=
        xallocator_get_allocator_spec _ m a st1 hfresh' hg
      rw [hsame.2.2]
      by_cases ha : get_block_allocator st p = a
      · have : st1 = lock_get st := hold (by rw [← ha]; simpa using hreg)
        rw [this]; simp [GetBlockSize]
      · simp [GetBlockSize, hoth _ ha]
    refine ⟨by rw [← hq, hnew], ?_⟩
    intro i hi
    rw [← hst', xfree_mem, ← hq]
    rw [hown, hbs]
    have hold : (GetBlockSize st (get_block_allocator st p) + SIZE_MOD - sizeof_AllocatorPtr)
        % SIZE_MOD = GetBlockSize st (get_block_allocator st p) - sizeof_AllocatorPtr := by
      simp only [SIZE_MOD, sizeof_AllocatorPtr] at hB hB64 ⊢
      omega
    rw [hold]
    have hcount : newMem + i <
        newMem + (if GetBlockSize st (get_block_allocator st p) - sizeof_AllocatorPtr < m
          then GetBlockSize st (get_block_allocator st p) - sizeof_AllocatorPtr else m) := by
      split <;> omega
    simp only [memcpy]
    rw [if_pos ⟨Nat.le_add_right _ _, hcount⟩, Nat.add_sub_cancel_left, hmem]
    unfold storePtr
    rw [if_neg]
    simp only [sizeof_AllocatorPtr] at hdisj hp ⊢
    omega

/-- Data preservation applied to the two resizes of the specification's test: a 10-byte
block grown to 1000 bytes and a 1000-byte block shrunk to 5 bytes keep their first 10 and
5 bytes. -/
theorem xrealloc_preserves_data_examples :
    ((xmalloc (initialState fun _ => 0) 10 4096).bind fun r1 =>
        (xrealloc (client_write r1.2 r1.1 10 fun i => i + 1) r1.1 1000 8192).map fun r2 =>
          (List.range 10).map fun i => r2.2.mem (r2.1 + i))
      = some [1, 2, 3, 4, 5, 6, 7, 8, 9, 10] ∧
    ((xmalloc (initialState fun _ => 0) 1000 4096).bind fun r1 =>
        (xrealloc (client_write r1.2 r1.1 1000 fun i => i % 7 + 1) r1.1 5 8192).map fun r2 =>
          (List.range 5).map fun i => r2.2.mem (r2.1 + i))
      = some [1, 2, 3, 4, 5] := by
  constructor <;> rfl

/-- Data preservation applied to a 10-byte block from the start state that is grown to
1000 bytes. -/
theorem xrealloc_preserves_data_applied :
    ∃ st1 q st2, xmalloc (initialState fun _ => 0) 10 4096 = some (4104, st1) ∧
      xrealloc (client_write st1 4104 10 fun i => i + 1) 4104 1000 8192 = some (q, st2) ∧
      q = 8200 ∧ ∀ i, i < 10 → st2.mem (q + i) = i + 1 := by
  have hx : ∃ st1, xmalloc (initialState fun _ => 0) 10 4096 = some (4104, st1) := ⟨_, rfl⟩
  obtain ⟨st1, hst⟩ := hx
  have hal : st1.allocators = 1 :: List.replicate 14 0 := by
    have h : (xmalloc (initialState fun _ => 0) 10 4096).map (fun r => r.2.allocators)
        = some (1 :: List.replicate 14 0) := rfl
    rw [hst] at h; simpa using h
  have hnx : st1.next = 2 := by
    have h : (xmalloc (initialState fun _ => 0) 10 4096).map (fun r => r.2.next) = some 2 := rfl
    rw [hst] at h; simpa using h
  have hbs : GetBlockSize st1 1 = 32 := by
    have h : (xmalloc (initialState fun _ => 0) 10 4096).map (fun r => GetBlockSize r.2 1)
        = some 32 := rfl
    rw [hst] at h; simpa using h
  have hown : get_block_allocator (client_write st1 4104 10 fun i => i + 1) 4104 = 1 := by
    have h : (xmalloc (initialState fun _ => 0) 10 4096).map
        (fun r => get_block_allocator (client_write r.2 4104 10 fun i => i + 1) 4104)
        = some 1 := rfl
    rw [hst] at h; simpa using h
  have hfresh : FreshNext (client_write st1 4104 10 fun i => i + 1) := by
    refine ⟨by show 0 < st1.next; omega, ?_⟩
    intro a ha
    have ha' : a ∈ st1.allocators := ha
    rw [hal] at ha'
    show a < st1.next
    rw [hnx]
    rcases List.mem_cons.mp ha' with h1 | h1
    · omega
    · have := (List.mem_replicate.mp h1).2; omega
  have hxr : ∃ r, xrealloc (client_write st1 4104 10 fun i => i + 1) 4104 1000 8192 = some r := by
    have h : ((xmalloc (initialState fun _ => 0) 10 4096).bind fun r =>
        (xrealloc (client_write r.2 4104 10 fun i => i + 1) 4104 1000 8192).map fun _ => 0)
        = some 0 := rfl
    rw [hst] at h
    simp only [Option.some_bind] at h
    cases hr : xrealloc (client_write st1 4104 10 fun i => i + 1) 4104 1000 8192 with
    | none => rw [hr] at h; simp at h
    | some r => exact ⟨r, rfl⟩
  obtain ⟨⟨q, st2⟩, hr⟩ := hxr
  obtain ⟨hq, hdata⟩ :=
    xrealloc_preserves_data (client_write st1 4104 10 fun i => i + 1) 4104 10 1000 8192 q st2
      hfresh (by decide) (by decide)
      (by rw [hown]; show 1 ∈ st1.allocators; rw [hal]; exact List.mem_cons_self _ _)
      (by rw [hown]; show 10 + sizeof_AllocatorPtr ≤ GetBlockSize st1 1; rw [hbs]; decide)
      (by rw [hown]; show GetBlockSize st1 1 < SIZE_MOD; rw [hbs]; decide)
      (Or.inr (by decide)) hr
  refine ⟨st1, q, st2, hst, hr, hq, ?_⟩
  intro i hi
  rw [hdata i (by omega)]
  simp only [client_write]
  rw [if_pos ⟨by omega, by omega⟩]
  omega

/-! ## `nexthigher`: exact characterisation -/

/-- One smear step extends a run of set bits below bit `w` downwards by the shift. -/
theorem smear_step_run (w x c i : Nat) (hi : i ≤ c)
    (h : ∀ j, w - c ≤ j → j < w → x.testBit j = true) :
    ∀ j, w - (c + i) ≤ j → j < w → (x ||| x >>> i).testBit j = true := by
  intro j hj hjw
  rw [Nat.testBit_or, Nat.testBit_shiftRight]
  by_cases hc : w - c ≤ j
  · simp [h j hc hjw]
  · have : x.testBit (i + j) = true := h (i + j) (by omega) (by omega)
    simp [this]

/-- The highest bit of a number between `2 ^ n` and `2 ^ (n + 1)` is bit `n`. -/
theorem testBit_top (x n : Nat) (h1 : 2 ^ n ≤ x) (h2 : x < 2 ^ (n + 1)) :
    x.testBit n = true := by
  obtain ⟨r, rfl⟩ := Nat.exists_eq_add_of_le h1
  have hr : r < 2 ^ n := by rw [Nat.pow_succ] at h2; omega
  rw [Nat.testBit_two_pow_add_eq, Nat.testBit_lt_two_pow hr]
  rfl

/-- The smear loop turns a number with exactly `n ≤ 64` significant bits into
`2 ^ n - 1`. -/
theorem nexthigher_loop_eq (x n : Nat) (hn : n ≤ 64) (hx : x < 2 ^ n)
    (htop : n = 0 ∨ 2 ^ (n - 1) ≤ x) : nexthigher_loop 64 1 x = 2 ^ n - 1 := by
  have hlt : nexthigher_loop 64 1 x < 2 ^ n := nexthigher_loop_lt n 64 1 x hx
  have hge : 2 ^ n - 1 ≤ nexthigher_loop 64 1 x := by
    rcases htop with h0 | h1
    · subst h0; simp
    · have hn0 : n ≠ 0 := by
        intro h0; subst h0; simp at hx h1; omega
      have hbit : x.testBit (n - 1) = true :=
        testBit_top x (n - 1) h1 (by rw [Nat.sub_add_cancel (by omega)]; exact hx)
      have h0 : ∀ j, n - 1 ≤ j → j < n → x.testBit j = true := by
        intro j hj hj'
        have : j = n - 1 := by omega
        rw [this]; exact hbit
      apply Nat.le_of_testBit
      intro i hi
      rw [Nat.testBit_two_pow_sub_one] at hi
      have hin : i < n := by simpa using hi
      rw [nexthigher_loop_unroll]
      have s1 := smear_step_run n _ 1 1 (by omega) h0
      have s2 := smear_step_run n _ 2 2 (by omega) s1
      have s3 := smear_step_run n _ 4 4 (by omega) s2
      have s4 := smear_step_run n _ 8 8 (by omega) s3
      have s5 := smear_step_run n _ 16 16 (by omega) s4
      have s6 := smear_step_run n _ 32 32 (by omega) s5
      exact s6 i (by omega) hin
  omega

/-- Between `1` and `2 ^ 63` the result of `nexthigher` is two to the number of significant
bits of `k - 1`. -/
theorem nexthigher_eq_two_pow (k : Nat) (hk0 : 0 < k) (hk : k ≤ 2 ^ 63) :
    nexthigher k = 2 ^ Nat.size (k - 1) := by
  have hsz : Nat.size (k - 1) ≤ 63 := Nat.size_le.mpr (by omega)
  have htop : Nat.size (k - 1) = 0 ∨ 2 ^ (Nat.size (k - 1) - 1) ≤ k - 1 := by
    by_cases h0 : Nat.size (k - 1) = 0
    · exact Or.inl h0
    · exact Or.inr (Nat.lt_size.mp (by omega))
  have hloop := nexthigher_loop_eq (k - 1) (Nat.size (k - 1)) (by omega)
    (Nat.lt_size_self (k - 1)) htop
  have hpow : 2 ^ Nat.size (k - 1) ≤ 2 ^ 63 := Nat.pow_le_pow_right (by decide) hsz
  have hpos : 0 < 2 ^ Nat.size (k - 1) := Nat.pos_pow_of_pos _ (by decide)
  unfold nexthigher
  rw [if_neg (by omega), hloop, Nat.sub_add_cancel hpos]
  apply Nat.mod_eq_of_lt
  simp only [SIZE_MOD]
  omega

theorem size_two_pow_pred (n : Nat) : Nat.size (2 ^ n - 1) = n := by
  have hpos : 0 < 2 ^ n := Nat.pos_pow_of_pos _ (by decide)
  apply le_antisymm
  · exact Nat.size_le.mpr (by omega)
  · cases n with
    | zero => exact Nat.zero_le _
    | succ m =>
      have : m < Nat.size (2 ^ (m + 1) - 1) := by
        rw [Nat.lt_size]
        have h2 : 2 ^ (m + 1) = 2 * 2 ^ m := by rw [Nat.pow_succ]; omega
        have h3 : 0 < 2 ^ m := Nat.pos_pow_of_pos _ (by decide)
        omega
      omega

/-- On `0 .. 2 ^ 63` the function `nexthigher` is monotone. -/
theorem nexthigher_mono (k1 k2 : Nat) (h : k1 ≤ k2) (h2 : k2 ≤ 2 ^ 63) :
    nexthigher k1 ≤ nexthigher k2 := by
  by_cases h0 : k2 = 0
  · have : k1 = 0 := by omega
    rw [h0, this]
  · rw [nexthigher_eq_two_pow k2 (by omega) h2]
    by_cases h1 : k1 = 0
    · rw [h1]
      have : nexthigher 0 = 1 := rfl
      rw [this]
      exact Nat.pos_pow_of_pos _ (by decide)
    · rw [nexthigher_eq_two_pow k1 (by omega) (by omega)]
      exact Nat.pow_le_pow_right (by decide) (Nat.size_le_size (by omega))

/-! ## C13: `nexthigher` as the smallest power of two -/

/-- C13 (as stated, refuted): `2 ^ 63 + 1` is a `size_t` value greater than zero and
`nexthigher` maps it to `0`, which is no power of two at or above it. -/
theorem nexthigher_above_half_not_power_of_two :
    0 < 2 ^ 63 + 1 ∧ 2 ^ 63 + 1 < SIZE_MOD ∧ nexthigher (2 ^ 63 + 1) = 0 ∧
      ¬ ∃ n, nexthigher (2 ^ 63 + 1) = 2 ^ n ∧ 2 ^ 63 + 1 ≤ 2 ^ n := by
  refine ⟨by decide, by decide, by decide, ?_⟩
  rintro ⟨n, h1, _⟩
  have h0 : nexthigher (2 ^ 63 + 1) = 0 := by decide
  rw [h0] at h1
  have : 0 < 2 ^ n := Nat.pos_pow_of_pos _ (by decide)
  omega

/-- C13 (amended): `nexthigher(0) = 1`, and for every `k` with `0 < k ≤ 2 ^ 63`,
`nexthigher(k)` is the smallest power of two that is at least `k`. -/
theorem nexthigher_smallest_power_of_two (k : Nat) (hk0 : 0 < k) (hk : k ≤ 2 ^ 63) :
    nexthigher 0 = 1 ∧
      ∃ n, nexthigher k = 2 ^ n ∧ k ≤ 2 ^ n ∧ ∀ m, k ≤ 2 ^ m → 2 ^ n ≤ 2 ^ m := by
  refine ⟨rfl, Nat.size (k - 1), nexthigher_eq_two_pow k hk0 hk, ?_, ?_⟩
  · have := Nat.lt_size_self (k - 1)
    omega
  · intro m hm
    exact Nat.pow_le_pow_right (by decide) (Nat.size_le.mpr (by omega))

/-- C13 (amended), applied at `k = 12`, where the result is `16`. -/
theorem nexthigher_smallest_power_of_two_witness :
    nexthigher 12 = 16 ∧
      ∃ n, nexthigher 12 = 2 ^ n ∧ 12 ≤ 2 ^ n ∧ ∀ m, 12 ≤ 2 ^ m → 2 ^ n ≤ 2 ^ m :=
  ⟨by decide, (nexthigher_smallest_power_of_two 12 (by decide) (by decide)).2⟩

/-! ## C20: exact characterisation of `nexthigher` -/

/-- C20: for every `k` with `0 < k ≤ 2 ^ 63`, `nexthigher(k)` is a power of two with
`k ≤ nexthigher(k) < 2k` and `nexthigher(nexthigher(k)) = nexthigher(k)`; for every `k` with
`2 ^ 63 < k < 2 ^ 64`, `nexthigher(k) = 0`. -/
theorem nexthigher_exact (k : Nat) :
    (0 < k → k ≤ 2 ^ 63 →
        (∃ n, nexthigher k = 2 ^ n) ∧ k ≤ nexthigher k ∧ nexthigher k < 2 * k ∧
          nexthigher (nexthigher k) = nexthigher k) ∧
      (2 ^ 63 < k → k < 2 ^ 64 → nexthigher k = 0) := by
  refine ⟨?_, nexthigher_eq_zero k⟩
  intro hk0 hk
  have heq := nexthigher_eq_two_pow k hk0 hk
  have hsz : Nat.size (k - 1) ≤ 63 := Nat.size_le.mpr (by omega)
  have hpow : 2 ^ Nat.size (k - 1) ≤ 2 ^ 63 := Nat.pow_le_pow_right (by decide) hsz
  have hpos : 0 < 2 ^ Nat.size (k - 1) := Nat.pos_pow_of_pos _ (by decide)
  refine ⟨⟨_, heq⟩, le_nexthigher k hk, ?_, ?_⟩
  · rw [heq]
    by_cases h0 : Nat.size (k - 1) = 0
    · rw [h0]; simp; omega
    · obtain ⟨m, hm⟩ := Nat.exists_eq_succ_of_ne_zero h0
      have htop : 2 ^ m ≤ k - 1 := Nat.lt_size.mp (by omega)
      rw [hm, Nat.pow_succ]
      omega
  · rw [heq, nexthigher_eq_two_pow _ hpos hpow, size_two_pow_pred]

/-- C20, applied at `k = 12` (result `16`) and at `k = 2 ^ 63 + 1` (result `0`). -/
theorem nexthigher_exact_witness :
    ((∃ n, nexthigher 12 = 2 ^ n) ∧ 12 ≤ nexthigher 12 ∧ nexthigher 12 < 2 * 12 ∧
        nexthigher (nexthigher 12) = nexthigher 12) ∧
      nexthigher (2 ^ 63 + 1) = 0 :=
  ⟨(nexthigher_exact 12).1 (by decide) (by decide),
    (nexthigher_exact (2 ^ 63 + 1)).2 (by decide) (by decide)⟩

/-! ## C19: monotonicity of the size-class rounding -/

/-- C19 (as stated, refuted): `256 ≤ 257` but the block sizes are 512 and 396; `512 ≤ 513`
but the block sizes are 1024 and 768; and `1 ≤ 2 ^ 63`, where `2 ^ 63 + 8` does not
overflow, but the block sizes are 16 and 0. -/
theorem blockSizeFor_not_monotone :
    (blockSizeFor 256 = 512 ∧ blockSizeFor 257 = 396) ∧
      (blockSizeFor 512 = 1024 ∧ blockSizeFor 513 = 768) ∧
      (2 ^ 63 + sizeof_AllocatorPtr < SIZE_MOD ∧ blockSizeFor 1 = 16 ∧
        blockSizeFor (2 ^ 63) = 0) ∧
      ¬ ∀ s1 s2, s1 ≤ s2 → s2 + sizeof_AllocatorPtr < SIZE_MOD →
        blockSizeFor s1 ≤ blockSizeFor s2 := by
  refine ⟨⟨by decide, by decide⟩, ⟨by decide, by decide⟩, ⟨by decide, by decide, by decide⟩, ?_⟩
  intro h
  have := h 256 257 (by decide) (by decide)
  revert this
  decide

/-- C19 (amended): for all payload sizes `s1 ≤ s2` with `s2 + h < 2 ^ 64`, the block size
computed for `s1` is at most the block size computed for `s2`, except when `s1` is in
`249..256` and `s2` in `257..396`, when `s1` is in `505..512` and `s2` in `513..768`, and
when `s1 + h ≤ 2 ^ 63 < s2 + h`. -/
theorem blockSizeFor_mono (s1 s2 : Nat) (h : s1 ≤ s2) (hs : s2 + sizeof_AllocatorPtr < SIZE_MOD)
    (h1 : ¬(248 < s1 ∧ s1 ≤ 256 ∧ 256 < s2 ∧ s2 ≤ 396))
    (h2 : ¬(504 < s1 ∧ s1 ≤ 512 ∧ 512 < s2 ∧ s2 ≤ 768))
    (h3 : ¬(s1 + sizeof_AllocatorPtr ≤ 2 ^ 63 ∧ 2 ^ 63 < s2 + sizeof_AllocatorPtr)) :
    blockSizeFor s1 ≤ blockSizeFor s2 := by
  simp only [sizeof_AllocatorPtr, SIZE_MOD] at hs h3
  have n256 : nexthigher 256 = 256 := by decide
  have n512 : nexthigher 512 = 512 := by decide
  have bs : ∀ s, s + 8 < 2 ^ 64 → ¬(256 < s ∧ s ≤ 396) → ¬(512 < s ∧ s ≤ 768) →
      blockSizeFor s = nexthigher (s + 8) := by
    intro s hlt t1 t2
    rw [blockSizeFor_of_not_tuned s t1 t2]
    simp only [sizeof_AllocatorPtr, SIZE_MOD]
    rw [Nat.mod_eq_of_lt hlt]
  by_cases a1 : 256 < s1 ∧ s1 ≤ 396
  · have e1 : blockSizeFor s1 = 396 := by unfold blockSizeFor; rw [if_pos a1]
    rw [e1]
    by_cases b1 : 256 < s2 ∧ s2 ≤ 396
    · have e2 : blockSizeFor s2 = 396 := by unfold blockSizeFor; rw [if_pos b1]
      rw [e2]
    · by_cases b2 : 512 < s2 ∧ s2 ≤ 768
      · have e2 : blockSizeFor s2 = 768 := by unfold blockSizeFor; rw [if_neg b1, if_pos b2]
        rw [e2]; decide
      · rw [bs s2 hs b1 b2]
        have := le_nexthigher (s2 + 8) (by omega)
        omega
  · by_cases a2 : 512 < s1 ∧ s1 ≤ 768
    · have e1 : blockSizeFor s1 = 768 := by unfold blockSizeFor; rw [if_neg a1, if_pos a2]
      rw [e1]
      by_cases b2 : 512 < s2 ∧ s2 ≤ 768
      · have e2 : blockSizeFor s2 = 768 := by
          unfold blockSizeFor; rw [if_neg (by omega), if_pos b2]
        rw [e2]
      · rw [bs s2 hs (by omega) b2]
        have := le_nexthigher (s2 + 8) (by omega)
        omega
    · rw [bs s1 (by omega) a1 a2]
      by_cases b1 : 256 < s2 ∧ s2 ≤ 396
      · have e2 : blockSizeFor s2 = 396 := by unfold blockSizeFor; rw [if_pos b1]
        rw [e2]
        have := nexthigher_mono (s1 + 8) 256 (by omega) (by decide)
        omega
      · by_cases b2 : 512 < s2 ∧ s2 ≤ 768
        · have e2 : blockSizeFor s2 = 768 := by unfold blockSizeFor; rw [if_neg b1, if_pos b2]
          rw [e2]
          have := nexthigher_mono (s1 + 8) 512 (by omega) (by decide)
          omega
        · rw [bs s2 hs b1 b2]
          by_cases hov : s2 + 8 ≤ 2 ^ 63
          · exact nexthigher_mono _ _ (by omega) hov
          · rw [nexthigher_eq_zero (s1 + 8) (by omega) (by omega),
              nexthigher_eq_zero (s2 + 8) (by omega) hs]

/-- C19 (amended), applied at `s1 = 100`, `s2 = 300`. -/
theorem blockSizeFor_mono_witness : blockSizeFor 100 ≤ blockSizeFor 300 :=
  blockSizeFor_mono 100 300 (by decide) (by decide) (by decide) (by decide) (by decide)

/-! ## C14: `find_allocator` -/

/-- A hit of the loop of `find_allocator` sits at the lowest index whose Pool has the
requested block size, and every slot before it is populated. -/
theorem find_allocator_loop_first (st : State) (size : Nat) :
    ∀ l, find_allocator_loop st size l ≠ 0 →
      ∃ i, i < l.length ∧ l.getD i 0 = find_allocator_loop st size l ∧
        ∀ j, j < i → l.getD j 0 ≠ 0 ∧ GetBlockSize st (l.getD j 0) ≠ size := by
  intro l
  induction l with
  | nil => intro h; simp [find_allocator_loop] at h
  | cons a rest ih =>
    intro h
    by_cases ha : a = 0
    · subst ha; simp [find_allocator_loop_cons_zero] at h
    · rw [find_allocator_loop_cons_ne st size ha] at h ⊢
      by_cases hs : GetBlockSize st a = size
      · rw [if_pos hs]
        exact ⟨0, by simp, by simp, fun j hj => absurd hj (Nat.not_lt_zero j)⟩
      · rw [if_neg hs] at h ⊢
        obtain ⟨i, hi, hget, hbefore⟩ := ih h
        refine ⟨i + 1, by simp [hi], by simpa using hget, ?_⟩
        intro j hj
        cases j with
        | zero => simpa using ⟨ha, hs⟩
        | succ j' =>
          simp only [List.getD_cons_succ]
          exact hbefore j' (by omega)

/-- C14: over a registry whose populated slots form a contiguous prefix, `find_allocator(size)`
returns `NULL` if and only if no populated slot has a Pool of block size `size`; otherwise it
returns the Pool of the lowest-index slot whose Pool has that block size. The function reads
the state and returns a pointer only: the registry is as it was. -/
theorem find_allocator_spec (st : State) (size : Nat) (hc : Contiguous st.allocators) :
    (find_allocator st size = 0 ↔
        ∀ a ∈ st.allocators, a ≠ 0 → GetBlockSize st a ≠ size) ∧
      (find_allocator st size ≠ 0 →
        ∃ i, i < st.allocators.length ∧ st.allocators.getD i 0 = find_allocator st size ∧
          GetBlockSize st (find_allocator st size) = size ∧
          ∀ j, j < i → st.allocators.getD j 0 ≠ 0 ∧
            GetBlockSize st (st.allocators.getD j 0) ≠ size) := by
  constructor
  · unfold find_allocator
    rw [find_allocator_loop_eq_zero, ← filter_eq_populated _ hc]
    constructor
    · intro h a ha hne
      exact h a (List.mem_filter.mpr ⟨ha, by simpa using hne⟩)
    · intro h a ha
      obtain ⟨h1, h2⟩ := List.mem_filter.mp ha
      exact h a h1 (by simpa using h2)
  · intro h
    obtain ⟨i, hi, hget, hbefore⟩ := find_allocator_loop_first st size st.allocators h
    exact ⟨i, hi, hget, (find_allocator_loop_hit st size st.allocators h).2, hbefore⟩

/-- C14, applied to the registry after Pools of block sizes 32 and 396 were registered:
the request for block size 396 finds the Pool in slot 1. -/
theorem find_allocator_spec_witness :
    ∃ st, run (initialState fun _ => 0)
        [Call.xallocator_get_allocator 10, Call.xallocator_get_allocator 300] = some st ∧
      find_allocator st 396 = 2 ∧
      (find_allocator st 64 = 0 ↔ ∀ a ∈ st.allocators, a ≠ 0 → GetBlockSize st a ≠ 64) := by
  have hx : ∃ st, run (initialState fun _ => 0)
      [Call.xallocator_get_allocator 10, Call.xallocator_get_allocator 300] = some st :=
    ⟨_, rfl⟩
  obtain ⟨st, hst⟩ := hx
  have hI := RegistryInv_run _ _ st hst (RegistryInv_of_EmptyRegistry _ ⟨rfl, by decide⟩)
  have hf : find_allocator st 396 = 2 := by
    have h : (run (initialState fun _ => 0)
        [Call.xallocator_get_allocator 10, Call.xallocator_get_allocator 300]).map
          (fun t => find_allocator t 396) = some 2 := rfl
    rw [hst] at h; simpa using h
  exact ⟨st, hst, hf, (find_allocator_spec st 64 hI.2.2.2.1).1⟩

/-! ## C15: `insert_allocator` -/

/-- The `Option` result of the loop of `insert_allocator` is its explicit-array form:
`none` stands for reaching the `ASSERT()`. -/
theorem insert_allocator_loop_eq_slots (x : Nat) : ∀ l,
    insert_allocator_loop x l =
      if (insert_allocator_slots x l).2 then some (insert_allocator_slots x l).1 else none := by
  intro l
  induction l with
  | nil => simp [insert_allocator_loop, insert_allocator_slots]
  | cons a rest ih =>
    by_cases ha : a = 0
    · subst ha; simp [insert_allocator_loop, insert_allocator_slots]
    · rw [insert_allocator_loop_cons_ne x ha, ih]
      simp only [insert_allocator_slots, ha, if_false]
      split <;> simp

/-- When every slot is populated the loop of `insert_allocator` runs on to the `ASSERT()`
without having written to any slot. -/
theorem insert_allocator_slots_full (x : Nat) : ∀ l, (∀ y ∈ l, y ≠ 0) →
    insert_allocator_slots x l = (l, false) := by
  intro l
  induction l with
  | nil => intro _; rfl
  | cons a rest ih =>
    intro h
    have ha : a ≠ 0 := h a (List.mem_cons_self _ _)
    have := ih fun y hy => h y (List.mem_cons_of_mem a hy)
    simp [insert_allocator_slots, ha, this]

/-- With an empty slot present the loop of `insert_allocator` writes the Pool into the
lowest-index empty slot and nowhere else; one more slot is populated afterwards. -/
theorem insert_allocator_loop_set (x : Nat) (hx : x ≠ 0) : ∀ l, (∃ y ∈ l, y = 0) →
    ∃ i, i < l.length ∧ l.getD i 0 = 0 ∧ (∀ j, j < i → l.getD j 0 ≠ 0) ∧
      insert_allocator_loop x l = some (l.set i x) ∧
      insert_allocator_slots x l = (l.set i x, true) ∧
      ((l.set i x).filter fun a => a != 0).length = (l.filter fun a => a != 0).length + 1 := by
  intro l
  induction l with
  | nil => rintro ⟨y, hy, _⟩; simp at hy
  | cons a rest ih =>
    intro h
    by_cases ha : a = 0
    · subst ha
      refine ⟨0, by simp, by simp, fun j hj => absurd hj (Nat.not_lt_zero j), ?_, ?_, ?_⟩
      · simp [insert_allocator_loop]
      · simp [insert_allocator_slots]
      · simp [List.filter_cons, hx]
    · have hrest : ∃ y ∈ rest, y = 0 := by
        obtain ⟨y, hy, hy0⟩ := h
        rcases List.mem_cons.mp hy with h1 | h1
        · exact absurd (h1 ▸ hy0) ha
        · exact ⟨y, h1, hy0⟩
      obtain ⟨i, hi, hzero, hbefore, hloop, hslots, hcount⟩ := ih hrest
      refine ⟨i + 1, by simp [hi], by simpa using hzero, ?_, ?_, ?_, ?_⟩
      · intro j hj
        cases j with
        | zero => simpa using ha
        | succ j' => simpa using hbefore j' (by omega)
      · rw [insert_allocator_loop_cons_ne x ha, hloop]; simp
      · simp [insert_allocator_slots, ha, hslots]
      · have e1 : ∀ l : List Nat,
            (a :: l).filter (fun a => a != 0) = a :: l.filter (fun a => a != 0) := by
          intro l; simp [List.filter_cons, ha]
        rw [List.set_cons_succ, e1, e1, List.length_cons, List.length_cons, hcount]

/-- C15: for a non-null Pool `a`, if some slot of the registry is empty, `insert_allocator(a)`
stores `a` in the lowest-index empty slot and leaves every other slot as it was; one more
slot is populated, and on a contiguous registry the populated prefix grows by exactly `a`.
It reaches the fatal `ASSERT()` if and only if every slot is populated, and then no slot has
been changed. -/
theorem insert_allocator_spec (st : State) (a : Nat) (ha : a ≠ 0) :
    ((∃ y ∈ st.allocators, y = 0) →
        ∃ i, i < st.allocators.length ∧ st.allocators.getD i 0 = 0 ∧
          (∀ j, j < i → st.allocators.getD j 0 ≠ 0) ∧
          insert_allocator st a = some { st with allocators := st.allocators.set i a } ∧
          ((st.allocators.set i a).filter fun x => x != 0).length
            = (st.allocators.filter fun x => x != 0).length + 1 ∧
          (Contiguous st.allocators →
            populated (st.allocators.set i a) = populated st.allocators ++ [a])) ∧
      (insert_allocator st a = none ↔ ∀ y ∈ st.allocators, y ≠ 0) ∧
      ((∀ y ∈ st.allocators, y ≠ 0) →
        insert_allocator_slots a st.allocators = (st.allocators, false)) := by
  refine ⟨?_, ?_, insert_allocator_slots_full a st.allocators⟩
  · intro h
    obtain ⟨i, hi, hzero, hbefore, hloop, _, hcount⟩ :=
      insert_allocator_loop_set a ha st.allocators h
    refine ⟨i, hi, hzero, hbefore, ?_, hcount, ?_⟩
    · simp [insert_allocator, hloop]
    · intro hc
      exact (insert_allocator_loop_contiguous a ha st.allocators _ hc hloop).2.1
  · unfold insert_allocator
    rw [Option.map_eq_none', insert_allocator_loop_eq_none]

/-- C15, applied to the empty registry of the start state and the Pool pointer `7`: the
Pool goes into slot 0. -/
theorem insert_allocator_spec_witness :
    ∃ i, i < (initialState fun _ => 0).allocators.length ∧
      insert_allocator (initialState fun _ => 0) 7
        = some { (initialState fun _ => 0) with
            allocators := (initialState fun _ => 0).allocators.set i 7 } := by
  obtain ⟨i, hi, _, _, h, _⟩ :=
    (insert_allocator_spec (initialState fun _ => 0) 7 (by decide)).1 ⟨0, by decide, rfl⟩
  exact ⟨i, hi, h⟩

/-! ## C12: teardown -/

/-- The loop of `xalloc_destroy` deletes the Pools of the populated prefix, each slot once,
in slot order, and calls nothing else. -/
theorem xalloc_destroy_loop_trace : ∀ (l : List Nat) (st : State),
    (xalloc_destroy_loop st l).1.trace = st.trace ++ (populated l).map Event.poolDelete := by
  intro l
  induction l with
  | nil => intro st; simp [xalloc_destroy_loop, populated]
  | cons a rest ih =>
    intro st
    by_cases ha : a = 0
    · subst ha; simp [xalloc_destroy_loop, populated_cons_zero]
    · unfold xalloc_destroy_loop
      simp only [ha, if_false]
      rw [ih, populated_cons_ne ha]
      simp [delete_Allocator, State.log]

/-- On a contiguous registry the loop of `xalloc_destroy` leaves the array all zero. -/
theorem xalloc_destroy_loop_snd (l : List Nat) (st : State) (hc : Contiguous l) :
    (xalloc_destroy_loop st l).2 = List.replicate l.length 0 := by
  obtain ⟨hz, hl⟩ := xalloc_destroy_loop_all_zero l st hc
  rw [List.eq_replicate_iff]
  exact ⟨hl, hz⟩

theorem lock_get_trace (st : State) :
    (lock_get st).trace = st.trace ++ (if st.xallocInitialized then [Event.csEnter] else []) := by
  unfold lock_get
  cases h : st.xallocInitialized <;> simp [State.log]

theorem lock_release_trace (st : State) :
    (lock_release st).trace
      = st.trace ++ (if st.xallocInitialized then [Event.csLeave] else []) := by
  unfold lock_release
  cases h : st.xallocInitialized <;> simp [State.log]

@[simp] theorem lock_get_xallocInitialized (st : State) :
    (lock_get st).xallocInitialized = st.xallocInitialized := by
  unfold lock_get; split <;> rfl

@[simp] theorem lock_release_xallocInitialized (st : State) :
    (lock_release st).xallocInitialized = st.xallocInitialized := by
  unfold lock_release; split <;> rfl

/-- C12: on a registry of `MAX_ALLOCATORS` slots whose populated slots form a contiguous
prefix, `xalloc_destroy` leaves every slot empty and the guard flag false, and the calls it
makes are: entering the critical section when the guard is initialised, one `delete` for
each populated slot in slot order, leaving the critical section when the guard is
initialised, and deleting the critical section. Hence each Pool is deleted as often as it is
registered: exactly once when the populated slots hold distinct Pools. -/
theorem xalloc_destroy_spec (st : State) (hc : Contiguous st.allocators)
    (hlen : st.allocators.length = MAX_ALLOCATORS) :
    (xalloc_destroy st).allocators = List.replicate MAX_ALLOCATORS 0 ∧
      (xalloc_destroy st).xallocInitialized = false ∧
      (xalloc_destroy st).trace =
        st.trace ++ (if st.xallocInitialized then [Event.csEnter] else []) ++
          (st.allocators.filter fun a => a != 0).map Event.poolDelete ++
          (if st.xallocInitialized then [Event.csLeave] else []) ++ [Event.csDelete] ∧
      (∀ a, ((st.allocators.filter fun a => a != 0).map Event.poolDelete).count
          (Event.poolDelete a) = (st.allocators.filter fun a => a != 0).count a) ∧
      ((st.allocators.filter fun a => a != 0).Nodup →
        ∀ a ∈ st.allocators, a ≠ 0 →
          ((st.allocators.filter fun a => a != 0).map Event.poolDelete).count
            (Event.poolDelete a) = 1) := by
  have hinj : Function.Injective Event.poolDelete := by
    intro x y h; cases h; rfl
  have hcount : ∀ a, ((st.allocators.filter fun a => a != 0).map Event.poolDelete).count
      (Event.poolDelete a) = (st.allocators.filter fun a => a != 0).count a :=
    fun a => List.count_map_of_injective _ _ hinj a
  obtain ⟨_, _, _, _, hflag⟩ :=
    xalloc_destroy_loop_frame (lock_get st).allocators (lock_get st)
  refine ⟨?_, ?_, ?_, hcount, ?_⟩
  · have : (xalloc_destroy st).allocators
        = (xalloc_destroy_loop (lock_get st) (lock_get st).allocators).2 := by
      simp [xalloc_destroy, lock_destroy]
    rw [this, xalloc_destroy_loop_snd _ _ (by simpa using hc)]
    simp [hlen]
  · simp [xalloc_destroy, lock_destroy]
  · have ht : (xalloc_destroy st).trace
        = (lock_release { (xalloc_destroy_loop (lock_get st) (lock_get st).allocators).1 with
            allocators := (xalloc_destroy_loop (lock_get st) (lock_get st).allocators).2 }).trace
          ++ [Event.csDelete] := by
      simp [xalloc_destroy, lock_destroy, State.log]
    have hflag' : (xalloc_destroy_loop (lock_get st) st.allocators).1.xallocInitialized
        = st.xallocInitialized := by
      rw [(xalloc_destroy_loop_frame st.allocators (lock_get st)).2.2.2.2]
      exact lock_get_xallocInitialized st
    rw [ht, lock_release_trace]
    simp only [lock_get_xallocInitialized, xalloc_destroy_loop_trace, lock_get_trace,
      lock_get_allocators, filter_eq_populated _ hc, hflag']
  · intro hnd a ha hne
    rw [hcount]
    exact List.count_eq_one_of_mem hnd (List.mem_filter.mpr ⟨ha, by simpa using hne⟩)

/-- C12, applied to the state after `xalloc_init` and two allocations from different size
classes: teardown empties the registry, clears the flag and deletes Pools 1 and 2. -/
theorem xalloc_destroy_spec_witness :
    ∃ st, run (initialState fun _ => 0)
        [Call.xalloc_init 1, Call.xmalloc 10 4096, Call.xmalloc 300 8192] = some st ∧
      (xalloc_destroy st).allocators = List.replicate MAX_ALLOCATORS 0 ∧
      (xalloc_destroy st).xallocInitialized = false ∧
      st.allocators.filter (fun a => a != 0) = [1, 2] := by
  have hx : ∃ st, run (initialState fun _ => 0)
      [Call.xalloc_init 1, Call.xmalloc 10 4096, Call.xmalloc 300 8192] = some st := ⟨_, rfl⟩
  obtain ⟨st, hst⟩ := hx
  have hI := RegistryInv_run _ _ st hst (RegistryInv_of_EmptyRegistry _ ⟨rfl, by decide⟩)
  have hf : st.allocators.filter (fun a => a != 0) = [1, 2] := by
    have h : (run (initialState fun _ => 0)
        [Call.xalloc_init 1, Call.xmalloc 10 4096, Call.xmalloc 300 8192]).map
          (fun t => t.allocators.filter (fun a => a != 0)) = some [1, 2] := rfl
    rw [hst] at h; simpa using h
  obtain ⟨h1, h2, _⟩ := xalloc_destroy_spec st hI.2.2.2.1 hI.2.2.1
  exact ⟨st, hst, h1, h2, hf⟩

/-! ## C11: what a failed Pool allocation leaves behind -/

@[simp] theorem Allocate_xallocInitialized (st : State) (a size raw : Nat) :
    (Allocate st a size raw).2.xallocInitialized = st.xallocInitialized := by
  unfold Allocate; split <;> rfl

/-- C11 (as stated, refuted): from the start state, `xmalloc(10)` with the Pool unable to
supply a block leaves the new Pool `1` in slot 0 of the registry, which was empty before. -/
theorem xmalloc_pool_failure_registers_pool :
    (xmalloc (initialState fun _ => 0) 10 0).map (fun r => r.2.allocators)
        = some (1 :: List.replicate 14 0) ∧
      (initialState fun _ => 0).allocators = List.replicate 15 0 ∧
      (xmalloc (initialState fun _ => 0) 10 0).map (fun r => r.2.allocators)
        ≠ some (initialState fun _ => 0).allocators := by
  refine ⟨rfl, rfl, by decide⟩

/-- C11 (amended): if the Pool cannot supply a block for `xmalloc(s)` and the call returns,
the guard flag and every Pool registered before the call are unchanged. When the block size
computed for `s` is already registered, the registry, all Pools and the next Pool address
are unchanged. When `s` is the first request of its size class, the registry afterwards
holds the new Pool, created with that block size and no block in use, in its first empty
slot, and every other Pool is unchanged. -/
theorem xmalloc_pool_failure_state (st : State) (s p : Nat) (st' : State) (hfresh : FreshNext st)
    (h : xmalloc st s 0 = some (p, st')) :
    st'.xallocInitialized = st.xallocInitialized ∧
      (∀ b ∈ st.allocators, st'.heap b = st.heap b) ∧
      (find_allocator st (blockSizeFor s) ≠ 0 →
        st'.allocators = st.allocators ∧ st'.heap = st.heap ∧ st'.next = st.next) ∧
      (find_allocator st (blockSizeFor s) = 0 →
        insert_allocator_loop st.next st.allocators = some st'.allocators ∧
          st'.heap st.next = ⟨blockSizeFor s, 0⟩ ∧
          (∀ b, b ≠ st.next → st'.heap b = st.heap b) ∧ st'.next = st.next + 1) := by
  obtain ⟨a, st1, hg, _, hst⟩ := xmalloc_eq_some st s 0 p st' h
  have hfind : find_allocator (lock_get st) (blockSizeFor s) = find_allocator st (blockSizeFor s) :=
    find_allocator_of_SameRegistry st (lock_get st) _ (SameRegistry_lock_get st)
  have hal : st'.allocators = st1.allocators := by rw [hst]; simp
  have hheap : st'.heap = st1.heap := by
    rw [hst]; simp [Allocate_heap_of_null]
  have hnext : st'.next = st1.next := by rw [hst]; simp
  have hflag : st'.xallocInitialized = st1.xallocInitialized := by
    rw [hst]; simp [set_block_allocator]
  rcases xallocator_get_allocator_cases _ s a st1 hg with ⟨hf, ha, rfl⟩ | ⟨hf, _, l, hl, rfl⟩
  · rw [hfind] at hf
    refine ⟨by rw [hflag]; simp, ?_, ?_, ?_⟩
    · intro b _; rw [hheap]; simp
    · intro _; exact ⟨by rw [hal]; simp, by rw [hheap]; simp, by rw [hnext]; simp⟩
    · intro h0; rw [hf] at h0; exact absurd h0 ha
  · rw [hfind] at hf
    simp only [lock_get_next, lock_get_allocators] at hl
    refine ⟨by rw [hflag]; simp [new_Allocator], ?_, ?_, ?_⟩
    · intro b hb
      have : b ≠ st.next := ne_of_lt (hfresh.2 b hb)
      rw [hheap]; simp [new_Allocator, this]
    · intro hne; exact absurd hf hne
    · intro _
      refine ⟨by rw [hal]; exact hl, by rw [hheap]; simp [new_Allocator], ?_,
        by rw [hnext]; simp [new_Allocator]⟩
      intro b hb
      rw [hheap]; simp [new_Allocator, hb]

/-- C11 (amended), applied to `xmalloc(10)` from the start state with the Pool unable to
supply a block: the flag is unchanged and the new Pool `1` of block size 32 is registered. -/
theorem xmalloc_pool_failure_state_witness :
    ∃ p st', xmalloc (initialState fun _ => 0) 10 0 = some (p, st') ∧
      st'.xallocInitialized = false ∧ st'.heap 1 = ⟨32, 0⟩ ∧ st'.next = 2 := by
  have hx : ∃ r, xmalloc (initialState fun _ => 0) 10 0 = some r := ⟨_, rfl⟩
  obtain ⟨⟨p, st'⟩, hst⟩ := hx
  obtain ⟨h1, _, _, h4⟩ :=
    xmalloc_pool_failure_state (initialState fun _ => 0) 10 p st'
      (HeapOK_initialState _).fresh hst
  obtain ⟨_, h5, _, h6⟩ := h4 (by decide)
  exact ⟨p, st', hst, h1, h5, h6⟩

/-! ## C17: the lock before `xalloc_init` -/

theorem DataEq_refl (st : State) : DataEq st st := ⟨rfl, rfl, rfl, rfl⟩

theorem DataEq_symm {a b : State} (h : DataEq a b) : DataEq b a :=
  ⟨h.1.symm, h.2.1.symm, h.2.2.1.symm, h.2.2.2.symm⟩

theorem DataEq_trans {a b c : State} (h1 : DataEq a b) (h2 : DataEq b c) : DataEq a c :=
  ⟨h1.1.trans h2.1, h1.2.1.trans h2.2.1, h1.2.2.1.trans h2.2.2.1, h1.2.2.2.trans h2.2.2.2⟩

theorem DataEq_lock_get (st : State) : DataEq st (lock_get st) :=
  ⟨by simp, by simp, by simp, by simp⟩

theorem DataEq_lock_release (st : State) : DataEq st (lock_release st) :=
  ⟨by simp, by simp, by simp, by simp⟩

theorem DataEq_find_allocator {st st' : State} (h : DataEq st st') (size : Nat) :
    find_allocator st size = find_allocator st' size := by
  unfold find_allocator
  rw [← h.1]
  exact (find_allocator_loop_congr st st' size _ fun a _ => by simp [GetBlockSize, h.2.1]).symm

theorem DataEq_xallocator_get_allocator {st st' : State} (h : DataEq st st') (s : Nat) :
    ResEq (xallocator_get_allocator st s) (xallocator_get_allocator st' s) := by
  have hfe := DataEq_find_allocator h (blockSizeFor s)
  by_cases hf : find_allocator st (blockSizeFor s) = 0
  · have hf' : find_allocator st' (blockSizeFor s) = 0 := by rw [← hfe]; exact hf
    simp only [xallocator_get_allocator, hf, hf', if_true, insert_allocator, new_Allocator,
      ← h.1, ← h.2.2.1]
    cases hi : insert_allocator_loop st.next st.allocators with
    | none => simp [ResEq]
    | some l =>
      simp only [Option.map_some', ResEq, DataEq, true_and]
      exact ⟨by rw [h.2.1], h.2.2.2⟩
  · have hf' : find_allocator st' (blockSizeFor s) ≠ 0 := by rw [← hfe]; exact hf
    simp only [xallocator_get_allocator, hf, hf', if_false, ResEq]
    exact ⟨hfe, h⟩

theorem DataEq_Allocate {st st' : State} (h : DataEq st st') (a size raw : Nat) :
    DataEq (Allocate st a size raw).2 (Allocate st' a size raw).2 := by
  unfold Allocate
  split
  · exact h
  · exact ⟨h.1, by simp [h.2.1], h.2.2.1, h.2.2.2⟩

theorem DataEq_Deallocate {st st' : State} (h : DataEq st st') (a b : Nat) :
    DataEq (Deallocate st a b) (Deallocate st' a b) :=
  ⟨h.1, by simp [Deallocate, h.2.1], h.2.2.1, h.2.2.2⟩

theorem DataEq_set_block_allocator {st st' : State} (h : DataEq st st') (b a : Nat) :
    DataEq (set_block_allocator st b a).2 (set_block_allocator st' b a).2 :=
  ⟨h.1, h.2.1, h.2.2.1, by simp [set_block_allocator, h.2.2.2]⟩

theorem DataEq_memcpy {st st' : State} (h : DataEq st st') (d s n : Nat) :
    DataEq (memcpy st d s n) (memcpy st' d s n) :=
  ⟨h.1, h.2.1, h.2.2.1, by simp [memcpy, h.2.2.2]⟩

theorem DataEq_get_block_allocator {st st' : State} (h : DataEq st st') (p : Nat) :
    get_block_allocator st p = get_block_allocator st' p := by
  simp [get_block_allocator, h.2.2.2]

theorem DataEq_xmalloc {st st' : State} (h : DataEq st st') (s raw : Nat) :
    ResEq (xmalloc st s raw) (xmalloc st' s raw) := by
  have hg := DataEq_xallocator_get_allocator
    (DataEq_trans (DataEq_symm (DataEq_lock_get st)) (DataEq_trans h (DataEq_lock_get st'))) s
  cases h1 : xallocator_get_allocator (lock_get st) s with
  | none =>
    cases h2 : xallocator_get_allocator (lock_get st') s with
    | none => simp [xmalloc, h1, h2, ResEq]
    | some r' => rw [h1, h2] at hg; simp [ResEq] at hg
  | some r =>
    cases h2 : xallocator_get_allocator (lock_get st') s with
    | none => rw [h1, h2] at hg; simp [ResEq] at hg
    | some r' =>
      rw [h1, h2] at hg
      obtain ⟨ha, hd⟩ := hg
      simp only [xmalloc, h1, h2, ResEq, set_block_allocator_fst, Allocate_fst, true_and]
      rw [ha]
      exact DataEq_set_block_allocator
        (DataEq_trans (DataEq_symm (DataEq_lock_release _))
          (DataEq_trans (DataEq_Allocate hd r'.1 s raw) (DataEq_lock_release _))) raw r'.1

theorem DataEq_xfree {st st' : State} (h : DataEq st st') (p : Nat) :
    DataEq (xfree st p) (xfree st' p) := by
  unfold xfree
  by_cases hp : p = 0
  · simp only [hp, if_true]; exact h
  · simp only [hp, if_false]
    rw [DataEq_get_block_allocator h]
    exact DataEq_trans (DataEq_symm (DataEq_lock_release _))
      (DataEq_trans
        (DataEq_Deallocate
          (DataEq_trans (DataEq_symm (DataEq_lock_get st)) (DataEq_trans h (DataEq_lock_get st')))
          _ _)
        (DataEq_lock_release _))

theorem DataEq_xrealloc {st st' : State} (h : DataEq st st') (old s raw : Nat) :
    ResEq (xrealloc st old s raw) (xrealloc st' old s raw) := by
  have hm := DataEq_xmalloc h s raw
  by_cases ho : old = 0
  · simp only [xrealloc, ho, if_true]; exact hm
  · by_cases hs : s = 0
    · simp only [xrealloc, ho, hs, if_true, if_false, ResEq, true_and]
      exact DataEq_xfree h old
    · cases h1 : xmalloc st s raw with
      | none =>
        cases h2 : xmalloc st' s raw with
        | none => simp [xrealloc, ho, hs, h1, h2, ResEq]
        | some r' => rw [h1, h2] at hm; simp [ResEq] at hm
      | some r =>
        cases h2 : xmalloc st' s raw with
        | none => rw [h1, h2] at hm; simp [ResEq] at hm
        | some r' =>
          rw [h1, h2] at hm
          obtain ⟨hp, hd⟩ := hm
          obtain ⟨q, stm⟩ := r
          obtain ⟨q', stm'⟩ := r'
          simp only at hp hd
          subst hp
          rw [xrealloc_of_xmalloc st old s raw q stm ho hs h1,
            xrealloc_of_xmalloc st' old s raw q stm' ho hs h2]
          by_cases hq : q ≠ 0
          · rw [if_pos hq, if_pos hq]
            simp only [ResEq, true_and]
            rw [DataEq_get_block_allocator hd, show GetBlockSize stm = GetBlockSize stm' from
              funext fun x => by simp [GetBlockSize, hd.2.1]]
            exact DataEq_xfree (DataEq_memcpy hd _ _ _) old
          · rw [if_neg hq, if_neg hq]
            simp only [ResEq, true_and]
            exact hd

/-- C17: while the guard flag is false, `lock_get` and `lock_release` return the state they
were given, so nothing is done to the critical section; and `xmalloc`, `xfree` and `xrealloc`
return the same pointers, reach the fatal assertion in the same cases, and leave the same
registry, Pools and memory, in any two states that hold the same data, whatever their guard
flags are. -/
theorem lock_noop_before_init (st st' : State) (s raw p : Nat)
    (hflag : st.xallocInitialized = false) (hd : DataEq st st') :
    lock_get st = st ∧ lock_release st = st ∧
      ResEq (xmalloc st s raw) (xmalloc st' s raw) ∧
      DataEq (xfree st p) (xfree st' p) ∧
      ResEq (xrealloc st p s raw) (xrealloc st' p s raw) := by
  refine ⟨by simp [lock_get, hflag], by simp [lock_release, hflag], DataEq_xmalloc hd s raw,
    DataEq_xfree hd p, DataEq_xrealloc hd p s raw⟩

/-- C17, applied to the start state and to the same state with the guard initialised. -/
theorem lock_noop_before_init_witness :
    lock_get (initialState fun _ => 0) = (initialState fun _ => 0) ∧
      ResEq (xmalloc (initialState fun _ => 0) 10 4096)
        (xmalloc { (initialState fun _ => 0) with xallocInitialized := true } 10 4096) := by
  obtain ⟨h1, _, h3, _⟩ :=
    lock_noop_before_init (initialState fun _ => 0)
      { (initialState fun _ => 0) with xallocInitialized := true } 10 4096 0 rfl
      ⟨rfl, rfl, rfl, rfl⟩
  exact ⟨h1, h3⟩

/-! ## `xrealloc`: the bytes it copies -/

theorem FreshNext_get (st : State) (s a : Nat) (st1 : State) (hfresh : FreshNext st)
    (h : xallocator_get_allocator st s = some (a, st1)) : FreshNext st1 := by
  obtain ⟨h0, hreg⟩ := hfresh
  rcases xallocator_get_allocator_cases st s a st1 h with ⟨_, _, rfl⟩ | ⟨_, _, l, hl, rfl⟩
  · exact ⟨h0, hreg⟩
  · refine ⟨by simp [new_Allocator], ?_⟩
    intro x hx
    rcases insert_allocator_loop_mem _ _ _ hl x hx with h1 | h1
    · have := hreg x h1
      simp only [new_Allocator]; omega
    · simp only [new_Allocator]; omega

theorem FreshNext_of_SameRegistry (st st' : State) (h : SameRegistry st st')
    (hfresh : FreshNext st) : FreshNext st' := by
  refine ⟨by rw [h.2.1]; exact hfresh.1, ?_⟩
  intro a ha
  rw [h.1] at ha
  rw [h.2.1]
  exact hfresh.2 a ha

/-- After a returning `xmalloc(s)` with raw block `r`: the client pointer is
`r + sizeof(Allocator*)`, its header names a registered Pool whose block size is the one
computed for `s`, and the next Pool address is still fresh. -/
theorem xmalloc_post (st : State) (s r p : Nat) (st' : State) (hok : HeapOK st)
    (h : xmalloc st s r = some (p, st')) :
    p = r + sizeof_AllocatorPtr ∧ FreshNext st' ∧
      get_block_allocator st' p ∈ st'.allocators ∧
      GetBlockSize st' (get_block_allocator st' p) = blockSizeFor s := by
  obtain ⟨a, st1, hg, hp, hst⟩ := xmalloc_eq_some st s r p st' h
  have hok' := HeapOK_lock_get st hok
  obtain ⟨_, hle, hmem, hbs, _, _, _⟩ := xallocator_get_allocator_spec _ s a st1 hok'.fresh hg
  have h64 : a < SIZE_MOD := lt_of_le_of_lt hle hok'.2.1
  have hown : get_block_allocator st' p = a := by
    rw [hst, hp]; exact get_block_allocator_set_block_allocator _ r a h64
  obtain ⟨a2, st2, hg2, hsame⟩ := xmalloc_registry st s r p st' h
  rw [hg] at hg2
  simp only [Option.some.injEq, Prod.mk.injEq] at hg2
  obtain ⟨rfl, rfl⟩ := hg2
  refine ⟨hp, FreshNext_of_SameRegistry _ _ hsame (FreshNext_get _ s a st1 hok'.fresh hg), ?_, ?_⟩
  · rw [hown, hsame.1]; exact hmem
  · rw [hown, hsame.2.2]; exact hbs

/-- With a non-null old pointer, a non-zero size and a returning inner `xmalloc`, `xrealloc`
copies `xrealloc_copy_count` bytes from the old to the new client pointer, frees the old
pointer and returns the new one. -/
theorem xrealloc_eq_memcpy (st : State) (old s raw q : Nat) (stm : State) (ho : old ≠ 0)
    (hs : s ≠ 0) (hm : xmalloc st s raw = some (q, stm)) :
    xrealloc st old s raw
      = some (q, xfree (memcpy stm q old (xrealloc_copy_count stm old s)) old) := by
  rw [xrealloc_of_xmalloc st old s raw q stm ho hs hm,
    if_pos (xmalloc_of_pool_success st s raw q stm hm).2]
  rfl

/-- The header of the old block survives the inner `xmalloc` when the new raw block's first
word does not overlap it. -/
theorem old_header_kept (st : State) (m raw q p : Nat) (stm : State)
    (hp : sizeof_AllocatorPtr ≤ p)
    (hdisj : raw + sizeof_AllocatorPtr ≤ p - sizeof_AllocatorPtr ∨ p ≤ raw)
    (h : xmalloc st m raw = some (q, stm)) :
    get_block_allocator stm p = get_block_allocator st p := by
  obtain ⟨a', hmem⟩ := xmalloc_mem st m raw q stm h
  unfold get_block_allocator
  rw [hmem]
  apply loadPtr_congr
  intro i hi
  unfold storePtr
  rw [if_neg]
  simp only [sizeof_AllocatorPtr] at hdisj hp hi ⊢
  omega

/-- A registered Pool keeps its block size across `xmalloc`. -/
theorem registered_blockSize_kept (st : State) (m raw q a : Nat) (stm : State)
    (hfresh : FreshNext st) (ha : a ∈ st.allocators)
    (h : xmalloc st m raw = some (q, stm)) : GetBlockSize stm a = GetBlockSize st a := by
  obtain ⟨a1, st1, hg, hsame⟩ := xmalloc_registry st m raw q stm h
  have hfresh' : FreshNext (lock_get st) := ⟨by simpa using hfresh.1, by simpa using hfresh.2⟩
  obtain ⟨_, _, _, _, hold, _, hoth⟩ := xallocator_get_allocator_spec _ m a1 st1 hfresh' hg
  rw [hsame.2.2]
  by_cases hc : a = a1
  · have : st1 = lock_get st := hold (by rw [← hc]; simpa using ha)
    rw [this]; simp [GetBlockSize]
  · simp [GetBlockSize, hoth _ hc]

theorem nexthigher_lt_SIZE_MOD (k : Nat) : nexthigher k < SIZE_MOD := by
  unfold nexthigher
  split
  · decide
  · exact Nat.mod_lt _ (by decide)

/-- The block size computed for a payload whose rounding does not overflow holds at least the
header and is a `size_t` value. -/
theorem blockSizeFor_bounds (n : Nat) (hn : n + sizeof_AllocatorPtr ≤ 2 ^ 63) :
    sizeof_AllocatorPtr ≤ blockSizeFor n ∧ blockSizeFor n < SIZE_MOD := by
  simp only [sizeof_AllocatorPtr] at hn
  by_cases t1 : 256 < n ∧ n ≤ 396
  · have : blockSizeFor n = 396 := by unfold blockSizeFor; rw [if_pos t1]
    rw [this]; decide
  · by_cases t2 : 512 < n ∧ n ≤ 768
    · have : blockSizeFor n = 768 := by unfold blockSizeFor; rw [if_neg t1, if_pos t2]
      rw [this]; decide
    · rw [blockSizeFor_of_not_tuned n t1 t2]
      refine ⟨?_, nexthigher_lt_SIZE_MOD _⟩
      have hlt : n + sizeof_AllocatorPtr < SIZE_MOD := by
        simp only [SIZE_MOD, sizeof_AllocatorPtr]; omega
      rw [Nat.mod_eq_of_lt hlt]
      have h63 : n + sizeof_AllocatorPtr ≤ 2 ^ 63 := by
        simp only [sizeof_AllocatorPtr]; omega
      have := le_nexthigher (n + sizeof_AllocatorPtr) h63
      simp only [sizeof_AllocatorPtr] at this ⊢
      omega

/-- Outside the upper eight sizes of the tuned ranges, and without overflow in the rounding,
the block holds payload plus header. -/
theorem le_blockSizeFor (m : Nat) (hm : m + sizeof_AllocatorPtr ≤ 2 ^ 63)
    (t1 : ¬(388 < m ∧ m ≤ 396)) (t2 : ¬(760 < m ∧ m ≤ 768)) :
    m + sizeof_AllocatorPtr ≤ blockSizeFor m := by
  simp only [sizeof_AllocatorPtr] at hm ⊢
  by_cases a1 : 256 < m ∧ m ≤ 396
  · have : blockSizeFor m = 396 := by unfold blockSizeFor; rw [if_pos a1]
    rw [this]; omega
  · by_cases a2 : 512 < m ∧ m ≤ 768
    · have : blockSizeFor m = 768 := by unfold blockSizeFor; rw [if_neg a1, if_pos a2]
      rw [this]; omega
    · rw [blockSizeFor_of_not_tuned m a1 a2]
      have hlt : m + sizeof_AllocatorPtr < SIZE_MOD := by
        simp only [SIZE_MOD, sizeof_AllocatorPtr]; omega
      rw [Nat.mod_eq_of_lt hlt]
      have h63 : m + sizeof_AllocatorPtr ≤ 2 ^ 63 := by
        simp only [sizeof_AllocatorPtr]; omega
      exact le_nexthigher (m + sizeof_AllocatorPtr) h63

/-- The copy count is the smaller of the old block's usable size and the new size when the
old block's size `B` holds the header: `min (B - h) size`. -/
theorem xrealloc_copy_count_eq_min (st : State) (old size : Nat)
    (h8 : sizeof_AllocatorPtr ≤ GetBlockSize st (get_block_allocator st old))
    (h64 : GetBlockSize st (get_block_allocator st old) < SIZE_MOD) :
    xrealloc_copy_count st old size
      = min (GetBlockSize st (get_block_allocator st old) - sizeof_AllocatorPtr) size := by
  unfold xrealloc_copy_count
  have hold : (GetBlockSize st (get_block_allocator st old) + SIZE_MOD - sizeof_AllocatorPtr)
      % SIZE_MOD = GetBlockSize st (get_block_allocator st old) - sizeof_AllocatorPtr := by
    simp only [SIZE_MOD, sizeof_AllocatorPtr] at h8 h64 ⊢
    omega
  simp only [hold]
  split <;> omega

/-- The copy count never exceeds the new size. -/
theorem xrealloc_copy_count_le (st : State) (old size : Nat) :
    xrealloc_copy_count st old size ≤ size := by
  unfold xrealloc_copy_count
  simp only
  split <;> omega

/-! ## C16: `xrealloc` reads inside the old block -/

/-- C16 (as stated, refuted): `p = xmalloc(2 ^ 63)`, where `2 ^ 63 + 8` does not overflow, is
served from a Pool of block size `0`; `xrealloc(p, 1)` then copies 1 byte from `p`, which is
not inside the old raw block `[p - 8, p - 8 + 0)`. -/
theorem xrealloc_reads_past_zero_size_block :
    2 ^ 63 + sizeof_AllocatorPtr < SIZE_MOD ∧
      ((xmalloc (initialState fun _ => 0) (2 ^ 63) 4096).bind fun r1 =>
        (xmalloc r1.2 1 8192).map fun r2 =>
          (r1.1, GetBlockSize r1.2 (get_block_allocator r1.2 r1.1),
            xrealloc_copy_count r2.2 r1.1 1))
        = some (4104, 0, 1) ∧
      ¬ (4104 + 1 ≤ get_block_ptr 4104 + 0) := by
  refine ⟨by decide, rfl, by decide⟩

/-- C16 (amended): let `p` be the pointer returned by `xmalloc(n)` for a request with
`n + h ≤ 2 ^ 63` (`h = sizeof(Allocator*)`), served from the raw block `r`, and let the inner
`xmalloc(m)` of `xrealloc(p, m)`, `m > 0`, return with a raw block whose first word does not
overlap the first word of `r`. Then `xrealloc(p, m)` copies `min(B - h, m)` bytes from `p`,
where `B` is the configured block size of the old Pool, and the bytes read, `[p, p + count)`,
lie inside the old raw block `[p - h, p - h + B)`. -/
theorem xrealloc_reads_inside_old_block (st : State) (n r p : Nat) (st1 : State)
    (m raw q : Nat) (stm : State) (hok : HeapOK st) (hn : n + sizeof_AllocatorPtr ≤ 2 ^ 63)
    (h1 : xmalloc st n r = some (p, st1)) (hm : m ≠ 0)
    (hdisj : raw + sizeof_AllocatorPtr ≤ r ∨ r + sizeof_AllocatorPtr ≤ raw)
    (h2 : xmalloc st1 m raw = some (q, stm)) :
    xrealloc st1 p m raw
        = some (q, xfree (memcpy stm q p (xrealloc_copy_count stm p m)) p) ∧
      GetBlockSize st1 (get_block_allocator st1 p) = blockSizeFor n ∧
      xrealloc_copy_count stm p m = min (blockSizeFor n - sizeof_AllocatorPtr) m ∧
      get_block_ptr p = r ∧ get_block_ptr p ≤ p ∧
      p + xrealloc_copy_count stm p m ≤ get_block_ptr p + blockSizeFor n := by
  obtain ⟨hp, hfresh1, hreg, hbs⟩ := xmalloc_post st n r p st1 hok h1
  obtain ⟨hb8, hb64⟩ := blockSizeFor_bounds n hn
  have hp0 : p ≠ 0 := by rw [hp]; simp [sizeof_AllocatorPtr]
  have hp8 : sizeof_AllocatorPtr ≤ p := by rw [hp]; omega
  have hkept : get_block_allocator stm p = get_block_allocator st1 p :=
    old_header_kept st1 m raw q p stm hp8
      (by rw [hp]; simp only [sizeof_AllocatorPtr] at hdisj ⊢; omega) h2
  have hsize : GetBlockSize stm (get_block_allocator stm p) = blockSizeFor n := by
    rw [hkept, registered_blockSize_kept st1 m raw q _ stm hfresh1 hreg h2, hbs]
  have hcount : xrealloc_copy_count stm p m = min (blockSizeFor n - sizeof_AllocatorPtr) m := by
    rw [xrealloc_copy_count_eq_min stm p m (by rw [hsize]; exact hb8) (by rw [hsize]; exact hb64),
      hsize]
  have hraw : get_block_ptr p = r := by rw [hp]; simp [get_block_ptr]
  refine ⟨xrealloc_eq_memcpy st1 p m raw q stm hp0 hm h2, hbs, hcount, hraw, ?_, ?_⟩
  · rw [hraw, hp]; omega
  · rw [hcount, hraw, hp]
    have : min (blockSizeFor n - sizeof_AllocatorPtr) m ≤ blockSizeFor n - sizeof_AllocatorPtr :=
      Nat.min_le_left _ _
    omega

/-- C16 (amended), applied to `p = xmalloc(10)` from the start state (raw block at 4096,
block size 32) and `xrealloc(p, 1000)` with the new raw block at 8192: 24 bytes are copied. -/
theorem xrealloc_reads_inside_old_block_witness :
    ∃ st1 q stm, xmalloc (initialState fun _ => 0) 10 4096 = some (4104, st1) ∧
      xmalloc st1 1000 8192 = some (q, stm) ∧
      xrealloc_copy_count stm 4104 1000 = min (blockSizeFor 10 - sizeof_AllocatorPtr) 1000 ∧
      4104 + xrealloc_copy_count stm 4104 1000 ≤ get_block_ptr 4104 + blockSizeFor 10 := by
  have hx : ∃ st1, xmalloc (initialState fun _ => 0) 10 4096 = some (4104, st1) := ⟨_, rfl⟩
  obtain ⟨st1, hst⟩ := hx
  have hy : ∃ r, xmalloc st1 1000 8192 = some r := by
    have h : ((xmalloc (initialState fun _ => 0) 10 4096).bind fun r =>
        (xmalloc r.2 1000 8192).map fun _ => 0) = some 0 := rfl
    rw [hst] at h
    simp only [Option.some_bind] at h
    cases hr : xmalloc st1 1000 8192 with
    | none => rw [hr] at h; simp at h
    | some r => exact ⟨r, rfl⟩
  obtain ⟨⟨q, stm⟩, hm⟩ := hy
  obtain ⟨_, _, h3, _, _, h6⟩ :=
    xrealloc_reads_inside_old_block (initialState fun _ => 0) 10 4096 4104 st1 1000 8192 q stm
      (HeapOK_initialState _) (by decide) hst (by decide) (Or.inr (by decide)) hm
  exact ⟨st1, q, stm, hst, hm, h3, h6⟩

/-! ## C18: `xrealloc` writes inside the new block -/

/-- C18 (as stated, refuted): with `p = xmalloc(1000)` (1016 usable bytes), `xrealloc(p, 396)`
is served from the 396-byte Pool and copies 396 bytes into `q`, more than the `396 - 8`
bytes behind `q` in the new raw block; and `xrealloc(p, 2 ^ 63)`, where `2 ^ 63 + 8` does not
overflow, is served from a Pool of block size `0` and copies 1016 bytes. -/
theorem xrealloc_writes_past_new_block :
    ((xmalloc (initialState fun _ => 0) 1000 4096).bind fun r1 =>
        (xmalloc r1.2 396 8192).map fun r2 =>
          (r1.1, r2.1, GetBlockSize r2.2 (get_block_allocator r2.2 r2.1),
            xrealloc_copy_count r2.2 r1.1 396))
        = some (4104, 8200, 396, 396) ∧
      ¬ (8200 + 396 ≤ get_block_ptr 8200 + 396) ∧
      2 ^ 63 + sizeof_AllocatorPtr < SIZE_MOD ∧
      ((xmalloc (initialState fun _ => 0) 1000 4096).bind fun r1 =>
        (xmalloc r1.2 (2 ^ 63) 8192).map fun r2 =>
          (r1.1, r2.1, GetBlockSize r2.2 (get_block_allocator r2.2 r2.1),
            xrealloc_copy_count r2.2 r1.1 (2 ^ 63)))
        = some (4104, 8200, 0, 1016) ∧
      ¬ (8200 + 1016 ≤ get_block_ptr 8200 + 0) := by
  refine ⟨rfl, by decide, by decide, rfl, by decide⟩

/-- C18 (amended): for every non-null pointer `p` and every new size `m > 0` with
`m + h ≤ 2 ^ 63` (`h = sizeof(Allocator*)`) that lies outside `389..396` and `761..768`, when
the inner `xmalloc(m)` of `xrealloc(p, m)` returns `q`, the number of bytes `xrealloc` copies
into `q` is at most `B' - h`, where `B'` is the configured block size of the Pool chosen for
`m`; the bytes written, `[q, q + count)`, lie inside the new raw block
`[q - h, q - h + B')`. -/
theorem xrealloc_writes_inside_new_block (st : State) (p m raw q : Nat) (stm : State)
    (hok : HeapOK st) (hp : p ≠ 0) (hm0 : m ≠ 0) (hm : m + sizeof_AllocatorPtr ≤ 2 ^ 63)
    (t1 : ¬(388 < m ∧ m ≤ 396)) (t2 : ¬(760 < m ∧ m ≤ 768))
    (h2 : xmalloc st m raw = some (q, stm)) :
    xrealloc st p m raw
        = some (q, xfree (memcpy stm q p (xrealloc_copy_count stm p m)) p) ∧
      GetBlockSize stm (get_block_allocator stm q) = blockSizeFor m ∧
      xrealloc_copy_count stm p m ≤ blockSizeFor m - sizeof_AllocatorPtr ∧
      get_block_ptr q = raw ∧ get_block_ptr q ≤ q ∧
      q + xrealloc_copy_count stm p m ≤ get_block_ptr q + blockSizeFor m := by
  obtain ⟨hq, _, _, hbs⟩ := xmalloc_post st m raw q stm hok h2
  have hle := le_blockSizeFor m hm t1 t2
  have hcnt := xrealloc_copy_count_le stm p m
  have hraw : get_block_ptr q = raw := by rw [hq]; simp [get_block_ptr]
  refine ⟨xrealloc_eq_memcpy st p m raw q stm hp hm0 h2, hbs, by omega, hraw, ?_, ?_⟩
  · rw [hraw, hq]; omega
  · rw [hraw, hq]; omega

/-- C18 (amended), applied to `p = xmalloc(1000)` from the start state and
`xrealloc(p, 300)` with the new raw block at 8192: at most `396 - 8` bytes are copied. -/
theorem xrealloc_writes_inside_new_block_witness :
    ∃ st1 q stm, xmalloc (initialState fun _ => 0) 1000 4096 = some (4104, st1) ∧
      xmalloc st1 300 8192 = some (q, stm) ∧
      xrealloc_copy_count stm 4104 300 ≤ blockSizeFor 300 - sizeof_AllocatorPtr ∧
      q + xrealloc_copy_count stm 4104 300 ≤ get_block_ptr q + blockSizeFor 300 := by
  have hx : ∃ st1, xmalloc (initialState fun _ => 0) 1000 4096 = some (4104, st1) := ⟨_, rfl⟩
  obtain ⟨st1, hst⟩ := hx
  have hy : ∃ r, xmalloc st1 300 8192 = some r := by
    have h : ((xmalloc (initialState fun _ => 0) 1000 4096).bind fun r =>
        (xmalloc r.2 300 8192).map fun _ => 0) = some 0 := rfl
    rw [hst] at h
    simp only [Option.some_bind] at h
    cases hr : xmalloc st1 300 8192 with
    | none => rw [hr] at h; simp at h
    | some r => exact ⟨r, rfl⟩
  obtain ⟨⟨q, stm⟩, hm⟩ := hy
  have hok1 : HeapOK st1 := by
    obtain ⟨_, hf, _, _⟩ := xmalloc_post _ 1000 4096 4104 st1 (HeapOK_initialState _) hst
    have hnx : st1.next = 2 := by
      have h : (xmalloc (initialState fun _ => 0) 1000 4096).map (fun r => r.2.next) = some 2 :=
        rfl
      rw [hst] at h; simpa using h
    exact ⟨hf.1, by rw [hnx]; decide, hf.2⟩
  obtain ⟨_, _, h3, _, _, h6⟩ :=
    xrealloc_writes_inside_new_block st1 4104 300 8192 q stm hok1 (by decide) (by decide)
      (by decide) (by decide) (by decide) hm
  exact ⟨st1, q, stm, hst, hm, h3, h6⟩

/-! ## Monotonicity: the exceptions are real -/

/-- The exceptions of the amended monotonicity are all real: in each of them the larger
request gets the smaller block. -/
theorem blockSizeFor_lt_of_excluded_pair (s1 s2 : Nat)
    (hs : s2 + sizeof_AllocatorPtr < SIZE_MOD)
    (h : (s1 + sizeof_AllocatorPtr ≤ 2 ^ 63 ∧ 2 ^ 63 < s2 + sizeof_AllocatorPtr) ∨
      (248 < s1 ∧ s1 ≤ 256 ∧ 256 < s2 ∧ s2 ≤ 396) ∨
      (504 < s1 ∧ s1 ≤ 512 ∧ 512 < s2 ∧ s2 ≤ 768)) :
    blockSizeFor s2 < blockSizeFor s1 := by
  have bs : ∀ s, s + 8 < 2 ^ 64 → ¬(256 < s ∧ s ≤ 396) → ¬(512 < s ∧ s ≤ 768) →
      blockSizeFor s = nexthigher (s + 8) := by
    intro s hlt t1 t2
    rw [blockSizeFor_of_not_tuned s t1 t2]
    simp only [sizeof_AllocatorPtr, SIZE_MOD]
    rw [Nat.mod_eq_of_lt hlt]
  rcases h with ⟨h1, h2⟩ | ⟨h1, h2, h3, h4⟩ | ⟨h1, h2, h3, h4⟩
  · have hb := (blockSizeFor_bounds s1 h1).1
    simp only [sizeof_AllocatorPtr, SIZE_MOD] at hs h2 hb
    rw [bs s2 hs (by omega) (by omega), nexthigher_eq_zero _ h2 hs]
    omega
  · have e2 : blockSizeFor s2 = 396 := by unfold blockSizeFor; rw [if_pos ⟨h3, h4⟩]
    have hlo := nexthigher_mono 257 (s1 + 8) (by omega) (by omega)
    have n257 : nexthigher 257 = 512 := by decide
    rw [e2, bs s1 (by omega) (by omega) (by omega)]
    omega
  · have e2 : blockSizeFor s2 = 768 := by
      unfold blockSizeFor; rw [if_neg (by omega), if_pos ⟨h3, h4⟩]
    have hlo := nexthigher_mono 513 (s1 + 8) (by omega) (by omega)
    have n513 : nexthigher 513 = 1024 := by decide
    rw [e2, bs s1 (by omega) (by omega) (by omega)]
    omega

end XAllocator
